import Mathlib

/-!
Verification of the HEIF reader core (box parser, file model, interpretation,
image assembly) against its natural-language specification.  The definitions
below are a shallow embedding of the C++ sources (`box.cc`, `heif_file.cc`,
`heif_context.cc`): machine integers become `Nat`/`Int`, C++ truncating
division becomes `Int.tdiv`, fallible routines return `Except`/pairs with an
optional error, and the byte stream becomes a `List Nat` with a cursor.
-/

/-! ## Error taxonomy (heif.h error codes and suberror codes) -/

inductive ErrorCode where
  | Ok
  | Invalid_input
  | Unsupported_filetype
  | Unsupported_feature
  | Usage_error
  | Memory_allocation_error
  | Decoder_plugin_error
  deriving DecidableEq, Repr

inductive Suberror where
  | Unspecified
  | No_ftyp_box
  | No_meta_box
  | No_hdlr_box
  | No_pict_handler
  | No_pitm_box
  | No_iprp_box
  | No_ipco_box
  | No_ipma_box
  | No_iloc_box
  | No_iinf_box
  | No_infe_box
  | No_hvcC_box
  | No_iref_box
  | No_idat_box
  | No_item_data
  | Invalid_box_size
  | End_of_data
  | Invalid_grid_data
  | Invalid_overlay_data
  | Missing_grid_images
  | Overlay_image_outside_of_canvas
  | Invalid_clean_aperture
  | Ipma_box_references_nonexisting_property
  | No_properties_assigned_to_item
  | Auxiliary_image_type_unspecified
  | Security_limit_exceeded
  | Unsupported_codec
  | Unsupported_image_type
  | Unsupported_color_conversion
  | Unsupported_data_version
  | Nonexisting_image_referenced
  | Unsupported_parameter
  deriving DecidableEq, Repr

/-- `heif::Error`: `{ code, sub_code, message }`. -/
structure Err where
  code : ErrorCode
  subcode : Suberror
  message : String := ""
  deriving DecidableEq, Repr

/-! ## Security limits (box.cc lines 35-38) -/

def maxChildrenPerBox : Nat := 1024
def maxIlocItems : Nat := 1024
def maxIlocExtentsPerItem : Nat := 32
def maxMemoryBlockSize : Nat := 50 * 1024 * 1024

/-- `INT_MAX` for the 32-bit `int` used by the sources. -/
def intMax : Nat := 2147483647

/-! ## Fraction (box.cc lines 44-89)

The C++ `Fraction` holds two `int` fields.  Arithmetic is modelled over
unbounded `Int` (the sources perform plain `int` arithmetic; overflow is
undefined behaviour there and is not modelled).  C++ `/` on `int` truncates
toward zero, which is `Int.tdiv`. -/

structure Fraction where
  numerator : Int
  denominator : Int
  deriving DecidableEq, Repr

/-- `Fraction::operator+`: reuses the denominator when both are equal. -/
def Fraction.add (a b : Fraction) : Fraction :=
  if a.denominator = b.denominator then
    ⟨a.numerator + b.numerator, a.denominator⟩
  else
    ⟨a.numerator * b.denominator + b.numerator * a.denominator,
     a.denominator * b.denominator⟩

/-- `Fraction::operator-(const Fraction&)`. -/
def Fraction.sub (a b : Fraction) : Fraction :=
  if a.denominator = b.denominator then
    ⟨a.numerator - b.numerator, a.denominator⟩
  else
    ⟨a.numerator * b.denominator - b.numerator * a.denominator,
     a.denominator * b.denominator⟩

/-- `Fraction::operator-(int v)`. -/
def Fraction.subInt (a : Fraction) (v : Int) : Fraction :=
  ⟨a.numerator - v * a.denominator, a.denominator⟩

/-- `Fraction::operator/(int v)`. -/
def Fraction.divInt (a : Fraction) (v : Int) : Fraction :=
  ⟨a.numerator, a.denominator * v⟩

/-- `Fraction::round_down`. -/
def Fraction.round_down (a : Fraction) : Int :=
  a.numerator.tdiv a.denominator

/-- `Fraction::round_up`. -/
def Fraction.round_up (a : Fraction) : Int :=
  (a.numerator + a.denominator - 1).tdiv a.denominator

/-- `Fraction::round`: `(numerator + denominator/2)/denominator` with C++
truncating division. -/
def Fraction.round (a : Fraction) : Int :=
  (a.numerator + a.denominator.tdiv 2).tdiv a.denominator

/-- Equality of two fractions as rational values (cross multiplication).
The spec describes `Fraction` as an exact rational, so `==` in the claim is
value equality. -/
def Fraction.valEq (a b : Fraction) : Prop :=
  a.numerator * b.denominator = b.numerator * a.denominator

instance : DecidablePred fun p : Fraction × Fraction => p.1.valEq p.2 := by
  intro p; unfold Fraction.valEq; infer_instance

/-- Round-to-nearest of the rational `n / d`, as the claim's words say
(Mathlib's `round`, i.e. nearest integer with halves rounded up). -/
def roundNearest (n d : Int) : Int :=
  round ((n : ℚ) / (d : ℚ))

/-- For a nonnegative numerator and positive denominator, the C++ rounding
formula `(n + d/2)/d` (truncating division) computes round-to-nearest. -/
theorem tdivRoundFormula (n d : Int) (hn : 0 ≤ n) (hd : 0 < d) :
    (n + d.tdiv 2).tdiv d = roundNearest n d := by
  have hd2 : (0 : Int) ≤ d.tdiv 2 := by
    rw [Int.tdiv_eq_ediv (le_of_lt hd) (by norm_num)]
    exact Int.ediv_nonneg (le_of_lt hd) (by norm_num)
  rw [Int.tdiv_eq_ediv (le_of_lt hd) (by norm_num)] at hd2 ⊢
  rw [Int.tdiv_eq_ediv (by linarith) (le_of_lt hd)]
  -- reduce the rational side to an integer floor division
  have hcast : ((n : ℚ) / (d : ℚ) + 1 / 2) = ((2 * n + d : Int) : ℚ) / ((2 * d : Int) : ℚ) := by
    have hdq : ((d : ℚ)) ≠ 0 := by
      exact_mod_cast Int.ne_of_gt hd
    push_cast
    field_simp
    ring
  have hfloor : roundNearest n d = (2 * n + d) / (2 * d) := by
    unfold roundNearest
    rw [round_eq, hcast]
    have h2d : (0 : Int) < 2 * d := by linarith
    have hc2 : ((2 * d : Int) : ℚ) = ((2 * d).toNat : ℚ) := by
      exact_mod_cast (Int.toNat_of_nonneg (le_of_lt h2d)).symm
    rw [hc2, Rat.floor_intCast_div_natCast, Int.toNat_of_nonneg (le_of_lt h2d)]
  rw [hfloor]
  -- remaining goal is a pure integer-division identity; split on parity of d
  rcases Int.emod_two_eq_zero_or_one d with hpar | hpar
  · -- even denominator: d = 2 * (d / 2)
    calc (n + d / 2) / d
        = (2 * (n + d / 2)) / (2 * d) := (Int.mul_ediv_mul_of_pos _ _ (by norm_num)).symm
      _ = (2 * n + d) / (2 * d) := by
          have h2 : 2 * (n + d / 2) = 2 * n + d := by omega
          rw [h2]
  · -- odd denominator: d = 2 * (d / 2) + 1, no exact-half cases arise
    have hde : d = 2 * (d / 2) + 1 := by omega
    set e := d / 2 with he
    set q := (n + e) / d with hq
    set r := (n + e) % d with hr
    have hdec : n + e = d * q + r := (Int.ediv_add_emod _ _).symm
    have hr0 : 0 ≤ r := Int.emod_nonneg _ (Int.ne_of_gt hd)
    have hrd : r < d := Int.emod_lt_of_pos _ hd
    have hsum : 2 * n + d = 2 * r + 1 + q * (2 * d) := by
      linear_combination 2 * hdec + hde
    have hzero : (2 * r + 1) / (2 * d) = 0 :=
      Int.ediv_eq_zero_of_lt (by omega) (by omega)
    rw [hsum, Int.add_mul_ediv_right _ _ (by omega : (2 : Int) * d ≠ 0), hzero, zero_add]

/-! ## C8: Fraction algebraic laws -/

/-- C8 counterexample input: `a = -2/3`, `k = 1`.  The C++ `round()` formula
truncates toward zero, so `(a/1).round() = 0`, but the nearest integer to
`-2/3` is `-1`. -/
theorem C8_counterexample :
    Fraction.round (Fraction.divInt ⟨-2, 3⟩ 1) ≠ roundNearest (-2) (3 * 1) := by
  have h1 : Fraction.round (Fraction.divInt ⟨-2, 3⟩ 1) = 0 := by decide
  have h2 : roundNearest (-2) (3 * 1) = -1 := by
    unfold roundNearest
    norm_num [round_eq]
  rw [h1, h2]
  decide

/-- C8 (amended): for fractions with positive denominators and a positive
divisor `k`: `(a+b)-b` equals `a` as a rational value; when additionally the
numerator is nonnegative, `(a/k).round()` is the round-to-nearest of
`numerator/(denominator*k)` (for a negative numerator the C++ formula
truncates toward zero and can differ); and addition of equal denominators
reuses the denominator. -/
theorem C8_fraction_laws (a b : Fraction) (k : Int)
    (hda : 0 < a.denominator) (hdb : 0 < b.denominator) (hk : 0 < k) :
    Fraction.valEq (Fraction.sub (Fraction.add a b) b) a ∧
    (0 ≤ a.numerator →
      Fraction.round (Fraction.divInt a k) = roundNearest a.numerator (a.denominator * k)) ∧
    (a.denominator = b.denominator → (Fraction.add a b).denominator = a.denominator) := by
  obtain ⟨n1, d1⟩ := a
  obtain ⟨n2, d2⟩ := b
  simp only at hda hdb
  refine ⟨?_, ?_, ?_⟩
  · unfold Fraction.add Fraction.sub Fraction.valEq
    dsimp only
    rcases eq_or_ne d1 d2 with h1 | h1
    · subst h1
      rw [if_pos rfl]
      dsimp only
      rw [if_pos rfl]
      dsimp only
      ring
    · rw [if_neg h1]
      dsimp only
      rcases eq_or_ne (d1 * d2) d2 with h2 | h2
      · have hd1 : d1 = 1 :=
          mul_right_cancel₀ (Int.ne_of_gt hdb) (h2.trans (one_mul d2).symm)
        subst hd1
        rw [if_pos h2]
        dsimp only
        ring
      · rw [if_neg h2]
        dsimp only
        ring
  · intro hn
    have h := tdivRoundFormula n1 (d1 * k) hn (by positivity)
    exact h
  · intro h
    have h' : d1 = d2 := h
    unfold Fraction.add
    rw [if_pos h]

/-- Witness for C8 at `a = 7/2`, `b = 1/3`, `k = 2`. -/
theorem C8_fraction_laws_witness :
    (0 : Int) < 2 ∧
    (Fraction.valEq (Fraction.sub (Fraction.add ⟨7, 2⟩ ⟨1, 3⟩) ⟨1, 3⟩) ⟨7, 2⟩ ∧
     (0 ≤ (7 : Int) →
       Fraction.round (Fraction.divInt ⟨7, 2⟩ 2) = roundNearest 7 (2 * 2)) ∧
     ((2 : Int) = 3 → (Fraction.add ⟨7, 2⟩ ⟨1, 3⟩).denominator = 2)) :=
  ⟨by norm_num,
   C8_fraction_laws ⟨7, 2⟩ ⟨1, 3⟩ 2 (by norm_num) (by norm_num) (by norm_num)⟩

/-! ## Bitstream range

`BitstreamRange` lives in bitstream.cc, which is not part of the provided
sources.  Modelled from the spec: "A read hitting EOF sets error; subsequent
reads are no-ops returning zero.  Any read that would exceed the remaining
budget sets error and returns zero" (§4.1).  The remaining content of the
range is a byte list; the error flag is sticky. -/
structure Range where
  data : List Nat
  err : Bool
  deriving DecidableEq, Repr

/-- Big-endian 32-bit value from four bytes. -/
def be32 (b0 b1 b2 b3 : Nat) : Nat :=
  ((b0 * 256 + b1) * 256 + b2) * 256 + b3

/-- Big-endian 32-bit value at the head of a byte list (0 when the list is
too short, matching a failed read). -/
def be32of : List Nat → Nat
  | b0 :: b1 :: b2 :: b3 :: _ => be32 b0 b1 b2 b3
  | _ => 0

/-- Modelled from the spec: `BitstreamRange::read32` (§4.1).  Returns the
big-endian value and consumes four bytes; a short read returns zero and sets
the sticky error flag. -/
def Range.read32 : Range → Nat × Range
  | ⟨d, e⟩ =>
    if e then (0, ⟨d, e⟩)
    else
      match d with
      | b0 :: b1 :: b2 :: b3 :: rest => (be32 b0 b1 b2 b3, ⟨rest, false⟩)
      | _ => (0, ⟨[], true⟩)

/-- Modelled from the spec: the error a bitstream range reports after a read
past its end (§4.3/§7, *End_of_data*). -/
def rangeEofErr : Err := ⟨.Invalid_input, .End_of_data, ""⟩

theorem Range.read32_of_len (d : List Nat) (h : 4 ≤ d.length) :
    Range.read32 ⟨d, false⟩ = (be32of d, ⟨d.drop 4, false⟩) := by
  match d with
  | b0 :: b1 :: b2 :: b3 :: rest => rfl
  | [] | [_] | [_, _] | [_, _, _] => simp at h

/-! ## Box_ftyp::parse (box.cc lines 460-479) -/

structure FtypBox where
  major_brand : Nat
  minor_version : Nat
  compatible_brands : List Nat
  deriving DecidableEq, Repr

/-- The brand-reading loop of `Box_ftyp::parse`:
`for (i = 0; i < n && !range.error(); i++) push(read32())`. -/
def readBrandsLoop : Nat → Range → List Nat → (List Nat × Range)
  | 0, r, acc => (acc, r)
  | Nat.succ n, r, acc =>
    if r.err then (acc, r)
    else
      let v := r.read32
      readBrandsLoop n v.2 (acc ++ [v.1])

def invalidBoxSizeFtypErr : Err :=
  ⟨.Invalid_input, .Invalid_box_size, "ftyp box too small (less than 8 bytes)"⟩

/-- `Box_ftyp::parse`: reads major brand and minor version, rejects the box
when `box_size <= header_size + 8`, then reads
`(box_size - header_size - 8)/4` compatible brands. -/
def Box_ftyp.parse (boxSize headerSize : Nat) (r : Range) : Except Err FtypBox :=
  let m := r.read32
  let v := m.2.read32
  if boxSize ≤ headerSize + 8 then
    .error invalidBoxSizeFtypErr
  else
    let n := (boxSize - headerSize - 8) / 4
    let res := readBrandsLoop n v.2 []
    if res.2.err then .error rangeEofErr
    else .ok ⟨m.1, v.1, res.1⟩

/-- `Box_ftyp::has_compatible_brand` (box.cc lines 482-491). -/
def Box_ftyp.has_compatible_brand (f : FtypBox) (brand : Nat) : Bool :=
  f.compatible_brands.contains brand

theorem readBrandsLoop_full (n : Nat) :
    ∀ (d : List Nat) (acc : List Nat), 4 * n ≤ d.length →
    readBrandsLoop n ⟨d, false⟩ acc =
      (acc ++ (List.range n).map (fun i => be32of (d.drop (4 * i))),
       ⟨d.drop (4 * n), false⟩) := by
  induction n with
  | zero => intro d acc _; simp [readBrandsLoop]
  | succ m ih =>
    intro d acc h
    match d, h with
    | b0 :: b1 :: b2 :: b3 :: rest, h =>
      show readBrandsLoop (m + 1) ⟨b0 :: b1 :: b2 :: b3 :: rest, false⟩ acc = _
      rw [readBrandsLoop]
      simp only [if_neg (by decide : ¬ (false = true))]
      rw [show Range.read32 ⟨b0 :: b1 :: b2 :: b3 :: rest, false⟩ =
            (be32 b0 b1 b2 b3, ⟨rest, false⟩) from rfl]
      rw [ih rest (acc ++ [be32 b0 b1 b2 b3]) (by simp at h ⊢; omega)]
      simp only [Prod.mk.injEq, Range.mk.injEq]
      refine ⟨?_, ?_, by trivial⟩
      · rw [List.range_succ_eq_map, List.map_cons, List.map_map, List.append_assoc,
            List.singleton_append]
        congr 1
      · show rest.drop (4 * m) = (b0 :: b1 :: b2 :: b3 :: rest).drop (4 * (m + 1))
        rw [show 4 * (m + 1) = 4 * m + 4 from by ring]
        rfl

/-! ## C9: ftyp box size requirement -/

/-- C9 counterexample: an ftyp box with exactly 8 content bytes (major brand
`heic`, minor version 0, no compatible brands).  The claim says a box with at
least 8 content bytes is accepted, but `Box_ftyp::parse` uses `<=` and
rejects it with Invalid_box_size. -/
theorem C9_counterexample :
    16 - 8 ≥ 8 ∧
    Box_ftyp.parse 16 8 ⟨[104, 101, 105, 99, 0, 0, 0, 0], false⟩ =
      .error invalidBoxSizeFtypErr := by
  constructor
  · decide
  · rfl

/-- C9 (amended): parsing an ftyp box requires STRICTLY more than 8 content
bytes beyond the header; a box with 8 or fewer content bytes (including the
boundary case of exactly 8: major brand and minor version, no brands) is
rejected with Invalid_box_size, and one with more than 8 content bytes has
its remaining content parsed as `(content-8)/4` 4-byte compatible brands. -/
theorem C9_ftyp_parse (boxSize headerSize : Nat) (data : List Nat)
    (hlen : data.length = boxSize - headerSize) :
    (boxSize ≤ headerSize + 8 →
      Box_ftyp.parse boxSize headerSize ⟨data, false⟩ = .error invalidBoxSizeFtypErr) ∧
    (headerSize + 8 < boxSize →
      Box_ftyp.parse boxSize headerSize ⟨data, false⟩ =
        .ok ⟨be32of data, be32of (data.drop 4),
             (List.range ((boxSize - headerSize - 8) / 4)).map
               (fun i => be32of (data.drop (8 + 4 * i)))⟩) := by
  constructor
  · intro hsmall
    unfold Box_ftyp.parse
    rw [if_pos hsmall]
  · intro hbig
    have hlen8 : 8 ≤ data.length := by omega
    unfold Box_ftyp.parse
    rw [Range.read32_of_len data (by omega)]
    dsimp only
    rw [Range.read32_of_len (data.drop 4) (by simp; omega)]
    dsimp only
    rw [if_neg (by omega)]
    have hdd : (data.drop 4).drop 4 = data.drop 8 := by
      rw [List.drop_drop]
    rw [hdd]
    have hle : 4 * ((boxSize - headerSize - 8) / 4) ≤ (data.drop 8).length := by
      simp only [List.length_drop]
      have := Nat.div_mul_le_self (boxSize - headerSize - 8) 4
      omega
    rw [readBrandsLoop_full _ _ [] hle]
    simp only [List.nil_append]
    rw [if_neg (by decide : ¬ (false = true))]
    congr 1
    congr 1
    apply List.map_congr_left
    intro i _
    rw [List.drop_drop]

/-- Witness for C9: a 20-byte ftyp box (12 content bytes, one brand). -/
theorem C9_ftyp_parse_witness :
    ([104, 101, 105, 99, 0, 0, 0, 0, 104, 101, 105, 99] : List Nat).length = 20 - 8 ∧
    ((20 ≤ 8 + 8 →
      Box_ftyp.parse 20 8 ⟨[104, 101, 105, 99, 0, 0, 0, 0, 104, 101, 105, 99], false⟩ =
        .error invalidBoxSizeFtypErr) ∧
     (8 + 8 < 20 →
      Box_ftyp.parse 20 8 ⟨[104, 101, 105, 99, 0, 0, 0, 0, 104, 101, 105, 99], false⟩ =
        .ok ⟨be32of [104, 101, 105, 99, 0, 0, 0, 0, 104, 101, 105, 99],
             be32of ([104, 101, 105, 99, 0, 0, 0, 0, 104, 101, 105, 99].drop 4),
             (List.range ((20 - 8 - 8) / 4)).map
               (fun i => be32of ([104, 101, 105, 99, 0, 0, 0, 0, 104, 101, 105, 99].drop (8 + 4 * i)))⟩)) :=
  ⟨by decide, C9_ftyp_parse 20 8 [104, 101, 105, 99, 0, 0, 0, 0, 104, 101, 105, 99] (by decide)⟩

/-! ## Box::read_children (box.cc lines 399-434) -/

/-- A child box as produced by `Box::read`; for the child-count limit only
its identity matters, so a box is abstracted to its four-cc type. -/
structure ChildBox where
  short_type : Nat
  deriving DecidableEq, Repr

def securityLimitChildrenErr : Err :=
  ⟨.Memory_allocation_error, .Security_limit_exceeded,
   "Maximum number of child boxes 1024 exceeded."⟩

/-- The loop of `Box::read_children`.  The stream holds the results of the
successive `Box::read` calls until the end of the range; `maxNumber` is the
`max_number` argument (`none` = READ_CHILDREN_ALL) and `count` the local
counter.  Returns the final `m_children` contents together with the returned
error, if any.  Note the order in the source: the size check
`m_children.size() > MAX_CHILDREN_PER_BOX` runs BEFORE the push_back. -/
def readChildrenLoop (maxNumber : Option Nat) :
    List (Except Err ChildBox) → List ChildBox → Nat → List ChildBox × Option Err
  | [], children, _ => (children, none)
  | r :: rest, children, count =>
    match r with
    | .error e => (children, some e)
    | .ok b =>
      if children.length > maxChildrenPerBox then
        (children, some securityLimitChildrenErr)
      else
        let children2 := children ++ [b]
        let count2 := count + 1
        if maxNumber = some count2 then (children2, none)
        else readChildrenLoop maxNumber rest children2 count2

/-- `Box::read_children` starting from an empty `m_children`. -/
def Box.read_children (maxNumber : Option Nat)
    (stream : List (Except Err ChildBox)) : List ChildBox × Option Err :=
  readChildrenLoop maxNumber stream [] 0

theorem readChildrenLoop_all_ok (bs : List ChildBox) :
    ∀ (children : List ChildBox) (count : Nat),
    children.length ≤ maxChildrenPerBox + 1 →
    readChildrenLoop none (bs.map Except.ok) children count =
      (if children.length + bs.length ≤ maxChildrenPerBox + 1 then
        (children ++ bs, none)
      else
        (children ++ bs.take (maxChildrenPerBox + 1 - children.length),
         some securityLimitChildrenErr)) := by
  induction bs with
  | nil =>
    intro children count h
    simp only [List.map_nil, List.length_nil, Nat.add_zero]
    rw [readChildrenLoop, if_pos h]
    simp
  | cons b rest ih =>
    intro children count h
    simp only [List.map_cons, List.length_cons]
    rw [readChildrenLoop]
    by_cases hfull : children.length > maxChildrenPerBox
    · rw [if_pos hfull]
      rw [if_neg (by omega)]
      have htake : maxChildrenPerBox + 1 - children.length = 0 := by omega
      rw [htake]
      simp
    · rw [if_neg hfull]
      simp only [reduceCtorEq, if_false]
      rw [ih (children ++ [b]) (count + 1) (by simp; omega)]
      by_cases hfit : children.length + (rest.length + 1) ≤ maxChildrenPerBox + 1
      · rw [if_pos (by simp; omega), if_pos hfit]
        simp
      · rw [if_neg (by simp; omega), if_neg hfit]
        have hsucc : maxChildrenPerBox + 1 - children.length =
            (maxChildrenPerBox + 1 - (children.length + 1)) + 1 := by omega
        rw [hsucc, List.take_succ_cons]
        simp

/-! ## C3: child-count security limit -/

/-- C3 counterexample: a container whose range yields 1,025 child boxes.
`read_children` succeeds and stores 1,025 children, which already exceeds
the claimed bound of 1,024, and no Security_limit_exceeded error is
returned. -/
theorem C3_counterexample :
    (Box.read_children none ((List.replicate 1025 (⟨0⟩ : ChildBox)).map Except.ok)).1.length
        = 1025 ∧
    (Box.read_children none ((List.replicate 1025 (⟨0⟩ : ChildBox)).map Except.ok)).2
        = none := by
  rw [Box.read_children,
      readChildrenLoop_all_ok _ [] 0 (by simp)]
  rw [if_pos (by rw [List.length_nil, List.length_replicate]; decide)]
  constructor
  · show ([] ++ List.replicate 1025 (⟨0⟩ : ChildBox)).length = 1025
    rw [List.nil_append, List.length_replicate]
  · rfl

/-- C3 (amended): the size check runs before the push, so `read_children`
can store up to 1,025 = MAX_CHILDREN_PER_BOX + 1 children; it never stores
more than 1,025, succeeds exactly when the input yields at most 1,025
children, and an input that yields more than 1,025 children makes it return
a Security_limit_exceeded error (with the first 1,025 children stored). -/
theorem C3_read_children (boxes : List ChildBox) :
    (Box.read_children none (boxes.map Except.ok)).1.length ≤ maxChildrenPerBox + 1 ∧
    ((Box.read_children none (boxes.map Except.ok)).2 = none ↔
      boxes.length ≤ maxChildrenPerBox + 1) ∧
    (maxChildrenPerBox + 1 < boxes.length →
      (Box.read_children none (boxes.map Except.ok)).2 = some securityLimitChildrenErr) := by
  rw [Box.read_children, readChildrenLoop_all_ok _ [] 0 (by simp)]
  by_cases hfit : boxes.length ≤ maxChildrenPerBox + 1
  · rw [if_pos (by simpa using hfit)]
    refine ⟨by simpa using hfit, by simp [hfit], by intro hc; omega⟩
  · rw [if_neg (by simpa using hfit)]
    refine ⟨?_, by simp [hfit], by intro _; simp⟩
    simp only [List.nil_append, List.length_take]
    omega

/-- Witness for C3 at an input of 1,026 child boxes. -/
theorem C3_read_children_witness :
    (Box.read_children none ((List.replicate 1026 (⟨0⟩ : ChildBox)).map Except.ok)).1.length
        ≤ maxChildrenPerBox + 1 ∧
    ((Box.read_children none ((List.replicate 1026 (⟨0⟩ : ChildBox)).map Except.ok)).2 = none ↔
      (List.replicate 1026 (⟨0⟩ : ChildBox)).length ≤ maxChildrenPerBox + 1) ∧
    (maxChildrenPerBox + 1 < (List.replicate 1026 (⟨0⟩ : ChildBox)).length →
      (Box.read_children none ((List.replicate 1026 (⟨0⟩ : ChildBox)).map Except.ok)).2
        = some securityLimitChildrenErr) :=
  C3_read_children (List.replicate 1026 ⟨0⟩)

/-! ## Box_iloc / Box_idat extent reading (box.cc lines 750-806 and 1530-1556) -/

structure Extent where
  index : Nat := 0
  offset : Nat
  length : Nat
  deriving DecidableEq, Repr

structure IlocItem where
  item_ID : Nat
  construction_method : Nat := 0
  data_reference_index : Nat := 0
  base_offset : Nat := 0
  extents : List Extent
  deriving DecidableEq, Repr

structure IdatBox where
  data_start_pos : Nat
  deriving DecidableEq, Repr

/-- C++ `size_t` subtraction: wraps modulo 2^64 (= 18446744073709551616). -/
def sizeTSub (a b : Nat) : Nat :=
  (a % 18446744073709551616 + 18446744073709551616 - b % 18446744073709551616)
    % 18446744073709551616

/-- The bytes deposited into a buffer of size `n` by `istr.read(buf, n)` at
file position `pos`: the available bytes, then the zero fill left by the
preceding `resize` when the file is short. -/
def readPadded (file : List Nat) (pos n : Nat) : List Nat :=
  (file.drop pos).take n ++ List.replicate (n - ((file.drop pos).take n).length) 0

theorem readPadded_length (file : List Nat) (pos n : Nat) :
    (readPadded file pos n).length = n := by
  unfold readPadded
  simp only [List.length_append, List.length_take, List.length_replicate,
    List.length_drop]
  omega

def ilocSecurityErr (len old : Nat) : Err :=
  ⟨.Memory_allocation_error, .Security_limit_exceeded,
   "iloc box contained " ++ toString len ++ " bytes, total memory size would be "
     ++ toString (old + len) ++ " bytes, exceeding the security limit of "
     ++ toString maxMemoryBlockSize ++ " bytes"⟩

def idatSecurityErr (len old : Nat) : Err :=
  ⟨.Memory_allocation_error, .Security_limit_exceeded,
   "idat box contained " ++ toString len ++ " bytes, total memory size would be "
     ++ toString (old + len) ++ " bytes, exceeding the security limit of "
     ++ toString maxMemoryBlockSize ++ " bytes"⟩

def endOfDataErr : Err := ⟨.Invalid_input, .End_of_data, ""⟩

def noIdatErr : Err :=
  ⟨.Invalid_input, .No_idat_box, "idat box referenced in iref box is not present in file"⟩

/-- `Box_idat::read_data` (box.cc lines 1530-1556): seeks to
`data_start_pos + start`, applies the cumulative 50 MiB check, resizes and
reads.  The result of `istr.read` is not checked: a short read leaves zero
fill and the function还 returns Ok.  Returns the final `out_data` together
with the returned error, if any. -/
def IdatBox.read_data (idat : IdatBox) (file : List Nat) (start len : Nat)
    (dest : List Nat) : List Nat × Option Err :=
  let currSize := dest.length
  if sizeTSub maxMemoryBlockSize currSize < len then
    (dest, some (idatSecurityErr len currSize))
  else
    (dest ++ readPadded file (idat.data_start_pos + start) len, none)

/-- The extent loop of `Box_iloc::read_data` (box.cc lines 756-803).
Construction method 0 reads from the file; the `istr.eof()` test right after
`seekg` can never fire (seeking a file stream does not set eofbit), so an
extent outside the file is caught by the `eof()` test after `read`.  For
construction method 1 the return value of `Box_idat::read_data` is DISCARDED
by the source (box.cc line 798), so its errors are swallowed and the loop
continues.  Extents with any other construction method are skipped. -/
def ilocReadDataLoop (item : IlocItem) (file : List Nat) (idat : Option IdatBox) :
    List Extent → List Nat → List Nat × Option Err
  | [], dest => (dest, none)
  | extent :: rest, dest =>
    if item.construction_method = 0 then
      let pos := extent.offset + item.base_offset
      let oldSize := dest.length
      if sizeTSub maxMemoryBlockSize oldSize < extent.length then
        (dest, some (ilocSecurityErr extent.length oldSize))
      else
        let dest2 := dest ++ readPadded file pos extent.length
        if 0 < extent.length ∧ file.length < pos + extent.length then
          (dest2, some endOfDataErr)
        else ilocReadDataLoop item file idat rest dest2
    else if item.construction_method = 1 then
      match idat with
      | none => (dest, some noIdatErr)
      | some idatBox =>
        ilocReadDataLoop item file idat rest (idatBox.read_data file
          (extent.offset + item.base_offset) extent.length dest).1
    else
      ilocReadDataLoop item file idat rest dest

/-- `Box_iloc::read_data`: `istr.clear()` then the extent loop over the
item's extents, accumulating into `*dest`. -/
def Box_iloc.read_data (item : IlocItem) (file : List Nat) (idat : Option IdatBox)
    (dest : List Nat) : List Nat × Option Err :=
  ilocReadDataLoop item file idat item.extents dest

theorem sizeTSub_max (old : Nat) (h : old ≤ maxMemoryBlockSize) :
    sizeTSub maxMemoryBlockSize old = maxMemoryBlockSize - old := by
  unfold sizeTSub maxMemoryBlockSize at *
  omega

theorem ilocReadDataLoop_bounded (item : IlocItem) (file : List Nat)
    (idat : Option IdatBox) (es : List Extent) :
    ∀ dest : List Nat, dest.length ≤ maxMemoryBlockSize →
    (ilocReadDataLoop item file idat es dest).1.length ≤ maxMemoryBlockSize := by
  induction es with
  | nil => intro dest h; exact h
  | cons e rest ih =>
    intro dest h
    rw [ilocReadDataLoop.eq_def]
    dsimp only
    by_cases hm0 : item.construction_method = 0
    · rw [if_pos hm0]
      by_cases hlim : sizeTSub maxMemoryBlockSize dest.length < e.length
      · rw [if_pos hlim]
        exact h
      · rw [if_neg hlim]
        have hfits : dest.length + e.length ≤ maxMemoryBlockSize := by
          rw [sizeTSub_max dest.length h] at hlim
          omega
        have hlen2 : (dest ++ readPadded file (e.offset + item.base_offset) e.length).length
            ≤ maxMemoryBlockSize := by
          rw [List.length_append, readPadded_length]
          exact hfits
        by_cases heof : 0 < e.length ∧
            file.length < e.offset + item.base_offset + e.length
        · rw [if_pos heof]
          exact hlen2
        · rw [if_neg heof]
          exact ih _ hlen2
    · rw [if_neg hm0]
      by_cases hm1 : item.construction_method = 1
      · rw [if_pos hm1]
        match idat with
        | none => exact h
        | some ib =>
          unfold IdatBox.read_data
          dsimp only
          by_cases hlim : sizeTSub maxMemoryBlockSize dest.length < e.length
          · rw [if_pos hlim]
            exact ih _ h
          · rw [if_neg hlim]
            have hfits : dest.length + e.length ≤ maxMemoryBlockSize := by
              rw [sizeTSub_max dest.length h] at hlim
              omega
            refine ih _ ?_
            rw [List.length_append, readPadded_length]
            exact hfits
      · rw [if_neg hm1]
        exact ih _ h

theorem ilocReadDataLoop_method1_ok (item : IlocItem) (file : List Nat)
    (ib : IdatBox) (hm : item.construction_method = 1) (es : List Extent) :
    ∀ dest : List Nat,
    (ilocReadDataLoop item file (some ib) es dest).2 = none := by
  induction es with
  | nil => intro dest; rfl
  | cons e rest ih =>
    intro dest
    rw [ilocReadDataLoop, hm]
    rw [if_neg (by decide : ¬ (1 = 0)), if_pos rfl]
    exact ih _

/-! ## C2: extent reading, the 50 MiB limit and out-of-file extents -/

/-- C2 counterexample: an item using construction method 1 (idat) with a
single 60 MiB extent.  The extent exceeds the 50 MiB cumulative limit, but
`Box_iloc::read_data` discards the error returned by `Box_idat::read_data`
and reports success instead of Security_limit_exceeded. -/
theorem C2_counterexample :
    maxMemoryBlockSize - ([] : List Nat).length < 62914560 ∧
    Box_iloc.read_data ⟨1, 1, 0, 0, [⟨0, 0, 62914560⟩]⟩ [] (some ⟨0⟩) []
      = ([], none) := by
  constructor
  · decide
  · rfl

/-- C2 (amended): the destination never grows beyond 50 MiB (when it starts
within the limit).  For construction method 0, an extent that would exceed
the cumulative limit makes the read return Security_limit_exceeded, and an
extent reaching outside the file makes it return End_of_data.  For
construction method 1 the source discards the error returned by
`Box_idat::read_data`, so the read always succeeds when an idat box is
present: an over-limit extent is skipped with the destination unchanged. -/
theorem C2_iloc_read_data (item : IlocItem) (file : List Nat)
    (idat : Option IdatBox) (dest : List Nat)
    (hdest : dest.length ≤ maxMemoryBlockSize) :
    ((Box_iloc.read_data item file idat dest).1.length ≤ maxMemoryBlockSize) ∧
    (∀ e rest, item.construction_method = 0 → item.extents = e :: rest →
      (maxMemoryBlockSize - dest.length < e.length →
        Box_iloc.read_data item file idat dest =
          (dest, some (ilocSecurityErr e.length dest.length))) ∧
      (e.length ≤ maxMemoryBlockSize - dest.length → 0 < e.length →
        file.length < e.offset + item.base_offset + e.length →
        Box_iloc.read_data item file idat dest =
          (dest ++ readPadded file (e.offset + item.base_offset) e.length,
           some endOfDataErr))) ∧
    (∀ ib, idat = some ib → item.construction_method = 1 →
      (Box_iloc.read_data item file idat dest).2 = none) := by
  refine ⟨ilocReadDataLoop_bounded item file idat item.extents dest hdest, ?_, ?_⟩
  · intro e rest hm0 hes
    unfold Box_iloc.read_data
    rw [hes, ilocReadDataLoop.eq_def]
    dsimp only
    rw [if_pos hm0]
    constructor
    · intro hexceed
      rw [if_pos (by rw [sizeTSub_max dest.length hdest]; exact hexceed)]
    · intro hfits hpos hout
      rw [if_neg (by rw [sizeTSub_max dest.length hdest]; omega)]
      rw [if_pos ⟨hpos, hout⟩]
  · intro ib hib hm1
    subst hib
    exact ilocReadDataLoop_method1_ok item file ib hm1 item.extents dest

/-- Witness for C2: a method-0 item with a 4-byte extent that reaches past
the end of a 2-byte file. -/
theorem C2_iloc_read_data_witness :
    ([] : List Nat).length ≤ maxMemoryBlockSize ∧
    (((Box_iloc.read_data ⟨1, 0, 0, 0, [⟨0, 0, 4⟩]⟩ [7, 7] none []).1.length
        ≤ maxMemoryBlockSize) ∧
     (∀ e rest, (0 : Nat) = 0 → ([⟨0, 0, 4⟩] : List Extent) = e :: rest →
       (maxMemoryBlockSize - ([] : List Nat).length < e.length →
         Box_iloc.read_data ⟨1, 0, 0, 0, [⟨0, 0, 4⟩]⟩ [7, 7] none [] =
           ([], some (ilocSecurityErr e.length ([] : List Nat).length))) ∧
       (e.length ≤ maxMemoryBlockSize - ([] : List Nat).length → 0 < e.length →
         ([7, 7] : List Nat).length < e.offset + 0 + e.length →
         Box_iloc.read_data ⟨1, 0, 0, 0, [⟨0, 0, 4⟩]⟩ [7, 7] none [] =
           ([] ++ readPadded [7, 7] (e.offset + 0) e.length,
            some endOfDataErr))) ∧
     (∀ ib, (none : Option IdatBox) = some ib → (0 : Nat) = 1 →
       (Box_iloc.read_data ⟨1, 0, 0, 0, [⟨0, 0, 4⟩]⟩ [7, 7] none []).2 = none)) :=
  ⟨by decide, C2_iloc_read_data ⟨1, 0, 0, 0, [⟨0, 0, 4⟩]⟩ [7, 7] none [] (by decide)⟩

/-! ## Box_hvcC NAL arrays (box.cc lines 1346-1418 and 1485-1506) -/

structure NalArray where
  m_array_completeness : Nat
  m_NAL_unit_type : Nat
  m_nal_units : List (List Nat)
  deriving DecidableEq, Repr

/-- The 4-byte big-endian size prefix `get_headers` emits for one NAL unit:
`(size >> 24) & 0xFF`, `(size >> 16) & 0xFF`, `(size >> 8) & 0xFF`,
`size & 0xFF`. -/
def nalLenPrefix (u : List Nat) : List Nat :=
  [u.length / 16777216 % 256, u.length / 65536 % 256, u.length / 256 % 256,
   u.length % 256]

/-- `Box_hvcC::get_headers`: for each NAL array and each of its units,
append the unit's 4-byte big-endian size followed by the unit bytes. -/
def Box_hvcC.get_headers (nal_array : List NalArray) : List Nat :=
  nal_array.flatMap (fun a => a.m_nal_units.flatMap (fun u => nalLenPrefix u ++ u))

/-- Re-parsing a byte stream as a sequence of NAL units, each prefixed with
a 4-byte big-endian length — the decoding side of the round-trip stated by
the claim. -/
def parseLenPrefixedNals : List Nat → Option (List (List Nat))
  | [] => some []
  | b0 :: b1 :: b2 :: b3 :: rest =>
    let n := be32 b0 b1 b2 b3
    if n ≤ rest.length then
      match parseLenPrefixedNals (rest.drop n) with
      | some units => some (rest.take n :: units)
      | none => none
    else none
  | _ => none
termination_by l => l.length
decreasing_by
  simp only [List.length_cons, List.length_drop]
  omega

theorem be32_nalLenPrefix (l : Nat) (h : l < 4294967296) :
    be32 (l / 16777216 % 256) (l / 65536 % 256) (l / 256 % 256) (l % 256) = l := by
  unfold be32
  omega

theorem parseLenPrefixedNals_cons (u rest : List Nat) (h : u.length < 4294967296) :
    parseLenPrefixedNals (nalLenPrefix u ++ (u ++ rest)) =
      (parseLenPrefixedNals rest).map (fun us => u :: us) := by
  show parseLenPrefixedNals (u.length / 16777216 % 256 :: u.length / 65536 % 256 ::
        u.length / 256 % 256 :: u.length % 256 :: (u ++ rest)) = _
  rw [parseLenPrefixedNals]
  rw [be32_nalLenPrefix u.length h]
  rw [if_pos (by simp)]
  rw [List.take_left, List.drop_left]
  cases hp : parseLenPrefixedNals rest with
  | none => rfl
  | some units => rfl

theorem unitBlob_parse (units : List (List Nat))
    (h : ∀ u ∈ units, u.length < 4294967296) :
    parseLenPrefixedNals (units.flatMap (fun u => nalLenPrefix u ++ u)) = some units := by
  induction units with
  | nil =>
    rw [List.flatMap_nil, parseLenPrefixedNals]
  | cons u rest ih =>
    rw [List.flatMap_cons, List.append_assoc]
    rw [parseLenPrefixedNals_cons u _ (h u (by simp))]
    rw [ih (fun v hv => h v (by simp [hv]))]
    rfl

/-! ## C7: hvcC header round-trip -/

/-- C7: for every parsed hvcC box (whose NAL unit sizes come from 16-bit
length fields, hence are at most 65535), re-parsing the byte vector emitted
by `get_headers` as 4-byte-length-prefixed NAL units yields exactly the NAL
byte sequences stored in the box's arrays, in order. -/
theorem C7_hvcC_roundtrip (nal_array : List NalArray)
    (hsize : ∀ a ∈ nal_array, ∀ u ∈ a.m_nal_units, u.length ≤ 65535) :
    parseLenPrefixedNals (Box_hvcC.get_headers nal_array) =
      some (nal_array.flatMap (fun a => a.m_nal_units)) := by
  unfold Box_hvcC.get_headers
  rw [show nal_array.flatMap (fun a => a.m_nal_units.flatMap (fun u => nalLenPrefix u ++ u))
        = (nal_array.flatMap (fun a => a.m_nal_units)).flatMap (fun u => nalLenPrefix u ++ u)
      from (List.flatMap_assoc nal_array _ _).symm]
  apply unitBlob_parse
  intro u hu
  rcases List.mem_flatMap.mp hu with ⟨a, ha, hua⟩
  have := hsize a ha u hua
  omega

/-- Witness for C7 at a box with two NAL arrays (one containing an empty
unit, as produced by a failed in-box read). -/
theorem C7_hvcC_roundtrip_witness :
    (∀ a ∈ [(⟨1, 32, [[222, 173], []]⟩ : NalArray), ⟨0, 33, [[7]]⟩],
      ∀ u ∈ a.m_nal_units, u.length ≤ 65535) ∧
    parseLenPrefixedNals
        (Box_hvcC.get_headers [⟨1, 32, [[222, 173], []]⟩, ⟨0, 33, [[7]]⟩]) =
      some ([(⟨1, 32, [[222, 173], []]⟩ : NalArray), ⟨0, 33, [[7]]⟩].flatMap
        (fun a => a.m_nal_units)) :=
  ⟨by decide, C7_hvcC_roundtrip [⟨1, 32, [[222, 173], []]⟩, ⟨0, 33, [[7]]⟩] (by decide)⟩

/-! ## Four-cc constants (as `fourcc("...")` values) -/

def fourccHeic : Nat := 0x68656963
def fourccPict : Nat := 0x70696374
def fourccThmb : Nat := 0x74686d62
def fourccAuxl : Nat := 0x6175786c
def fourccCdsc : Nat := 0x63647363
def fourccHvc1 : Nat := 0x68766331
def fourccGrid : Nat := 0x67726964
def fourccIden : Nat := 0x6964656e
def fourccIovl : Nat := 0x696f766c
def fourccExif : Nat := 0x45786966

/-! ## Box_infe (box.cc lines 809-849) -/

/-- The `Box_infe` state interpretation relies on: item id, version, flags
and the item type four-cc (0 when the file stored none; version <= 1 boxes
carry no explicit type, matching the empty `m_item_type` default). -/
structure InfeBox where
  item_ID : Nat
  version : Nat
  flags : Nat
  item_type : Nat := 0
  deriving DecidableEq, Repr

/-- `Box_infe::is_hidden_item`: `m_hidden_item = (flags & 1)` is assigned
only when version >= 2 (box.cc line 823); otherwise the default false. -/
def InfeBox.is_hidden_item (i : InfeBox) : Bool :=
  decide (2 ≤ i.version) && decide (i.flags % 2 = 1)

/-! ## Property boxes and the ipco/ipma tables (box.cc lines 942-1072) -/

/-- A property box stored in `ipco`.  Only the kinds the interpretation
phase inspects are distinguished; all others are `other`. -/
inductive PropBox where
  | ispe (width height : Nat)
  | clap (clap_width clap_height horizontal_offset vertical_offset : Fraction)
  | irot (rotation : Nat)
  | imir (horizontal : Bool)
  | auxC (aux_type : String) (subtypes : List Nat)
  | hvcC (nal_array : List NalArray)
  | other (short_type : Nat)
  deriving DecidableEq, Repr

structure PropertyAssociation where
  essential : Bool
  property_index : Nat
  deriving DecidableEq, Repr

structure IpmaEntry where
  item_ID : Nat
  associations : List PropertyAssociation
  deriving DecidableEq, Repr

/-- `Box_ipma::get_properties_for_item_ID`: associations of the first entry
with the item id, if any. -/
def Box_ipma.get_properties_for_item_ID (entries : List IpmaEntry) (itemID : Nat) :
    Option (List PropertyAssociation) :=
  (entries.find? (fun e => e.item_ID == itemID)).map IpmaEntry.associations

/-- `Box_ipco::Property`. -/
structure IpcoProperty where
  essential : Bool
  property : PropBox
  deriving DecidableEq, Repr

def noPropsErr (itemID : Nat) : Err :=
  ⟨.Invalid_input, .No_properties_assigned_to_item,
   "Item (ID=" ++ toString itemID ++ ") has no properties assigned to it in ipma box"⟩

def ipmaNonexistErr (itemID idx : Nat) : Err :=
  ⟨.Invalid_input, .Ipma_box_references_nonexisting_property,
   "Nonexisting property (index=" ++ toString idx ++ ") for item  ID="
     ++ toString itemID ++ " referenced in ipma box"⟩

/-- The association loop of `Box_ipco::get_properties_for_item_ID`: an index
beyond the property table is an error, index 0 is tolerated and skipped,
otherwise the (1-based) indexed property is appended. -/
def ipcoGetPropertiesLoop (allProperties : List PropBox) (itemID : Nat) :
    List PropertyAssociation → List IpcoProperty → Except Err (List IpcoProperty)
  | [], out => .ok out
  | assoc :: rest, out =>
    if allProperties.length < assoc.property_index then
      .error (ipmaNonexistErr itemID assoc.property_index)
    else if 0 < assoc.property_index then
      ipcoGetPropertiesLoop allProperties itemID rest
        (out ++ [⟨assoc.essential,
                  allProperties.getD (assoc.property_index - 1) (.other 0)⟩])
    else
      ipcoGetPropertiesLoop allProperties itemID rest out

/-- `Box_ipco::get_properties_for_item_ID` (box.cc lines 942-978). -/
def Box_ipco.get_properties_for_item_ID (allProperties : List PropBox)
    (ipma : List IpmaEntry) (itemID : Nat) : Except Err (List IpcoProperty) :=
  match Box_ipma.get_properties_for_item_ID ipma itemID with
  | none => .error (noPropsErr itemID)
  | some assocs => ipcoGetPropertiesLoop allProperties itemID assocs []

/-! ## Box_iref (box.cc lines 1251-1343) -/

structure IrefReference where
  ref_type : Nat
  from_item_ID : Nat
  to_item_ID : List Nat
  deriving DecidableEq, Repr

/-- `Box_iref::get_reference_type`: type of the first reference whose
`from_item_ID` matches, 0 otherwise. -/
def Box_iref.get_reference_type (refs : List IrefReference) (itemID : Nat) : Nat :=
  ((refs.find? (fun r => r.from_item_ID == itemID)).map IrefReference.ref_type).getD 0

/-- `Box_iref::get_references`: targets of the first reference whose
`from_item_ID` matches, `[]` otherwise. -/
def Box_iref.get_references (refs : List IrefReference) (itemID : Nat) : List Nat :=
  ((refs.find? (fun r => r.from_item_ID == itemID)).map IrefReference.to_item_ID).getD []

/-! ## The file model and HeifFile::parse_heif_file (heif_file.cc 111-236) -/

/-- An `std::map` insert into a key-sorted association list: does not
overwrite an existing key (`std::map::insert` keeps the old entry). -/
def mapInsert {α : Type} (k : Nat) (v : α) : List (Nat × α) → List (Nat × α)
  | [] => [(k, v)]
  | (k2, v2) :: rest =>
    if k < k2 then (k, v) :: (k2, v2) :: rest
    else if k = k2 then (k2, v2) :: rest
    else (k2, v2) :: mapInsert k v rest

/-- The children of an `iprp` box that the file model inspects. -/
inductive IprpChild where
  | ipco (properties : List PropBox)
  | ipma (entries : List IpmaEntry)
  | other (short_type : Nat)
  deriving DecidableEq, Repr

/-- The children of the `meta` box that the file model inspects.  The `iinf`
constructor carries its `infe` children (the registry guarantees an
infe-typed child is a `Box_infe`, so the `No_infe_box` cast-failure path of
the source is unreachable). -/
inductive MetaChild where
  | hdlr (handler_type : Nat)
  | pitm (item_ID : Nat)
  | iprp (children : List IprpChild)
  | iloc (items : List IlocItem)
  | iinf (infe_children : List InfeBox)
  | iref (references : List IrefReference)
  | idat (box : IdatBox)
  | other (short_type : Nat)
  deriving DecidableEq, Repr

/-- A parsed top-level box as produced by the `Box::read` loop. -/
inductive TopBox where
  | ftyp (box : FtypBox)
  | meta (children : List MetaChild)
  | other (short_type : Nat)
  deriving DecidableEq, Repr

/-- `HeifFile` state after a successful `parse_heif_file`. -/
structure FileModel where
  primary_image_ID : Nat
  infe_items : List (Nat × InfeBox)
  iloc_items : List IlocItem
  ipco_properties : List PropBox
  ipma_entries : List IpmaEntry
  iref_box : Option (List IrefReference)
  idat_box : Option IdatBox
  deriving DecidableEq, Repr

/-- `Box::get_child_box` forms: first child of each kind. -/
def metaHdlr (cs : List MetaChild) : Option Nat :=
  (cs.filterMap fun c => match c with | .hdlr t => some t | _ => none).head?

def metaPitm (cs : List MetaChild) : Option Nat :=
  (cs.filterMap fun c => match c with | .pitm i => some i | _ => none).head?

def metaIprp (cs : List MetaChild) : Option (List IprpChild) :=
  (cs.filterMap fun c => match c with | .iprp l => some l | _ => none).head?

def metaIloc (cs : List MetaChild) : Option (List IlocItem) :=
  (cs.filterMap fun c => match c with | .iloc l => some l | _ => none).head?

def metaIinf (cs : List MetaChild) : Option (List InfeBox) :=
  (cs.filterMap fun c => match c with | .iinf l => some l | _ => none).head?

def metaIref (cs : List MetaChild) : Option (List IrefReference) :=
  (cs.filterMap fun c => match c with | .iref l => some l | _ => none).head?

def metaIdat (cs : List MetaChild) : Option IdatBox :=
  (cs.filterMap fun c => match c with | .idat b => some b | _ => none).head?

def iprpIpco (cs : List IprpChild) : Option (List PropBox) :=
  (cs.filterMap fun c => match c with | .ipco l => some l | _ => none).head?

def iprpIpma (cs : List IprpChild) : Option (List IpmaEntry) :=
  (cs.filterMap fun c => match c with | .ipma l => some l | _ => none).head?

/-- The last `ftyp` top-level box: each `ftyp` encountered in the reading
loop overwrites `m_ftyp_box` (heif_file.cc line 132). -/
def topFtyp (boxes : List TopBox) : Option FtypBox :=
  (boxes.filterMap fun b => match b with | .ftyp f => some f | _ => none).getLast?

/-- The last `meta` top-level box (heif_file.cc line 128). -/
def topMeta (boxes : List TopBox) : Option (List MetaChild) :=
  (boxes.filterMap fun b => match b with | .meta cs => some cs | _ => none).getLast?

def noFtypErr : Err := ⟨.Invalid_input, .No_ftyp_box, ""⟩
def unsupportedFiletypeErr : Err :=
  ⟨.Unsupported_filetype, .Unspecified, "File does not support the 'heic' brand.\n"⟩

/-- `HeifFile::parse_heif_file` after the top-level reading loop: the brand
and required-box checks, then the item table build from the `infe` children
(`m_images.insert` keeps the first box per id). -/
def HeifFile.parse_heif_file (boxes : List TopBox) : Except Err FileModel :=
  match topFtyp boxes with
  | none => .error noFtypErr
  | some ftypBox =>
    if ¬ (Box_ftyp.has_compatible_brand ftypBox fourccHeic) then
      .error unsupportedFiletypeErr
    else
      match topMeta boxes with
      | none => .error ⟨.Invalid_input, .No_meta_box, ""⟩
      | some metaChildren =>
        match metaHdlr metaChildren with
        | none => .error ⟨.Invalid_input, .No_hdlr_box, ""⟩
        | some handler_type =>
          if handler_type ≠ fourccPict then
            .error ⟨.Invalid_input, .No_pict_handler, ""⟩
          else
            match metaPitm metaChildren with
            | none => .error ⟨.Invalid_input, .No_pitm_box, ""⟩
            | some pitm_id =>
              match metaIprp metaChildren with
              | none => .error ⟨.Invalid_input, .No_iprp_box, ""⟩
              | some iprpChildren =>
                match iprpIpco iprpChildren with
                | none => .error ⟨.Invalid_input, .No_ipco_box, ""⟩
                | some ipcoProps =>
                  match iprpIpma iprpChildren with
                  | none => .error ⟨.Invalid_input, .No_ipma_box, ""⟩
                  | some ipmaEntries =>
                    match metaIloc metaChildren with
                    | none => .error ⟨.Invalid_input, .No_iloc_box, ""⟩
                    | some ilocItems =>
                      match metaIinf metaChildren with
                      | none => .error ⟨.Invalid_input, .No_iinf_box, ""⟩
                      | some infeBoxes =>
                        .ok { primary_image_ID := pitm_id,
                              infe_items := infeBoxes.foldl
                                (fun m i => mapInsert i.item_ID i m) [],
                              iloc_items := ilocItems,
                              ipco_properties := ipcoProps,
                              ipma_entries := ipmaEntries,
                              iref_box := metaIref metaChildren,
                              idat_box := metaIdat metaChildren }

/-! ## The interpretation phase (heif_context.cc lines 525-785)

The `Image` record and its setters live in heif_context.h, which is not
among the provided sources. -/

/-- Modelled from the spec: the resolved image record (§3, "Resolved
image"): `{ id, width, height, is_primary, is_thumbnail_of, alpha_of,
depth_of, alpha_child, depth_child, thumbnails[], metadata[] }`.
`is_thumbnail()` is "this image has been marked thumbnail-of some target".
Width/height are `Int` because the clap arithmetic can produce negative
rounded values. -/
structure Image where
  id : Nat
  width : Int := 0
  height : Int := 0
  is_primary : Bool := false
  thumbnail_of : Option Nat := none
  alpha_of : Option Nat := none
  depth_of : Option Nat := none
  thumbnails : List Nat := []
  alpha_child : Option Nat := none
  depth_child : Option Nat := none
  metadata : List (List Nat) := []
  deriving DecidableEq, Repr

/-- The mutable context state of `interpret_heif_file`: `m_all_images`
(an id-keyed `std::map`, as a key-sorted association list),
`m_top_level_images` (ids) and `m_primary_image`. -/
structure CtxState where
  all_images : List (Nat × Image)
  top_level : List Nat
  primary : Option Nat
  deriving DecidableEq, Repr

/-- In-place mutation of the image stored under `id`. -/
def updateImage (imgs : List (Nat × Image)) (id : Nat) (f : Image → Image) :
    List (Nat × Image) :=
  imgs.map (fun p => if p.1 = id then (p.1, f p.2) else p)

/-- `m_all_images.find(id)`. -/
def findImage (imgs : List (Nat × Image)) (id : Nat) : Option Image :=
  (imgs.find? (fun p => p.1 == id)).map Prod.snd

/-- `item_type_is_image` (heif_context.cc lines 343-349). -/
def item_type_is_image (t : Nat) : Bool :=
  t == fourccHvc1 || t == fourccGrid || t == fourccIden || t == fourccIovl

/-- `HeifFile::get_properties` (heif_file.cc lines 271-283); after a
successful parse the ipco and ipma boxes are always present. -/
def HeifFile.get_properties (fm : FileModel) (imageID : Nat) :
    Except Err (List IpcoProperty) :=
  Box_ipco.get_properties_for_item_ID fm.ipco_properties fm.ipma_entries imageID

/-- `HeifFile::get_item_type`: `""` (here 0) when the item is unknown. -/
def HeifFile.get_item_type (fm : FileModel) (ID : Nat) : Nat :=
  (((fm.infe_items.find? (fun p => p.1 == ID)).map Prod.snd).map InfeBox.item_type).getD 0

def primaryMissingErr : Err :=
  ⟨.Invalid_input, .Nonexisting_image_referenced, "'pitm' box references a non-existing image"⟩

/-- Pass A part 1 (heif_context.cc lines 534-556): reference all non-hidden
images, build `m_all_images`, the top-level list and the primary image. -/
def buildImages (fm : FileModel) : CtxState :=
  fm.infe_items.foldl (fun st p =>
    let id := p.1
    let infe := p.2
    if item_type_is_image infe.item_type then
      if infe.is_hidden_item then
        { st with all_images := mapInsert id { id := id } st.all_images }
      else
        let img : Image := { id := id, is_primary := decide (id = fm.primary_image_ID) }
        { all_images := mapInsert id img st.all_images,
          top_level := st.top_level ++ [id],
          primary := if id = fm.primary_image_ID then some id else st.primary }
    else st)
    ⟨[], [], none⟩

def tooManyThumbRefsErr : Err :=
  ⟨.Invalid_input, .Unspecified, "Too many thumbnail references"⟩
def thumbNonexistErr : Err :=
  ⟨.Invalid_input, .Nonexisting_image_referenced, "Thumbnail references a non-existing image"⟩
def thumbOfThumbErr : Err :=
  ⟨.Invalid_input, .Nonexisting_image_referenced, "Thumbnail references another thumbnail"⟩
def noAuxCErr (id : Nat) : Err :=
  ⟨.Invalid_input, .Auxiliary_image_type_unspecified, "No auxC property for image " ++ toString id⟩
def tooManyAuxRefsErr : Err :=
  ⟨.Invalid_input, .Unspecified, "Too many auxiliary image references"⟩

def auxTypeAlphaAvc : String := "urn:mpeg:avc:2015:auxid:1"
def auxTypeAlphaHevc : String := "urn:mpeg:hevc:2015:auxid:1"
def auxTypeDepthHevc : String := "urn:mpeg:hevc:2015:auxid:2"

/-- One iteration of the thumbnail/auxiliary loop (heif_context.cc lines
572-678) for the image with the given id.

`thmb`: exactly one target required, `set_is_thumbnail_of` happens before
the master lookup, a master already marked as a thumbnail is rejected, then
`add_thumbnail` and `remove_top_level_image`.

`auxl`: the last auxC property wins (the source loop overwrites); exactly
one target required; alpha/depth aux types set the respective edges.  The
source dereferences the master lookup without checking for absence
(undefined behaviour); here a missing master leaves the table unchanged.
The depth-representation SEI attachment only fills `depth_representation_info`,
which no claim inspects, and is not modelled further. -/
def interpretRefStep (fm : FileModel) (irefs : List IrefReference)
    (st : CtxState) (id : Nat) : Except Err CtxState :=
  let t := Box_iref.get_reference_type irefs id
  if t = fourccThmb then
    match Box_iref.get_references irefs id with
    | [master_id] =>
      let st1 : CtxState := { st with
        all_images := updateImage st.all_images id
          (fun im => { im with thumbnail_of := some master_id }) }
      match findImage st1.all_images master_id with
      | none => .error thumbNonexistErr
      | some master =>
        if master.thumbnail_of.isSome then .error thumbOfThumbErr
        else .ok { st1 with
          all_images := updateImage st1.all_images master_id
            (fun im => { im with thumbnails := im.thumbnails ++ [id] }),
          top_level := st1.top_level.filter (fun x => x ≠ id) }
    | _ => .error tooManyThumbRefsErr
  else if t = fourccAuxl then
    match HeifFile.get_properties fm id with
    | .error e => .error e
    | .ok props =>
      match (props.filterMap (fun p => match p.property with
              | .auxC ty sub => some (ty, sub)
              | _ => none)).getLast? with
      | none => .error (noAuxCErr id)
      | some auxC =>
        match Box_iref.get_references irefs id with
        | [master_id] =>
          let st1 : CtxState :=
            if auxC.1 = auxTypeAlphaAvc ∨ auxC.1 = auxTypeAlphaHevc then
              let ia := updateImage st.all_images id
                (fun im => { im with alpha_of := some master_id })
              let ib := updateImage ia master_id
                (fun im => { im with alpha_child := some id })
              { st with all_images := ib }
            else st
          let st2 : CtxState :=
            if auxC.1 = auxTypeDepthHevc then
              let ia := updateImage st1.all_images id
                (fun im => { im with depth_of := some master_id })
              let ib := updateImage ia master_id
                (fun im => { im with depth_child := some id })
              { st1 with all_images := ib }
            else st1
          .ok { st2 with top_level := st2.top_level.filter (fun x => x ≠ id) }
        | _ => .error tooManyAuxRefsErr
  else .ok st

/-- The thumbnail/auxiliary loop over `m_all_images` (map iteration order =
increasing id); runs only when an `iref` box is present. -/
def interpretRefsLoop (fm : FileModel) (irefs : List IrefReference) :
    List Nat → CtxState → Except Err CtxState
  | [], st => .ok st
  | id :: rest, st =>
    match interpretRefStep fm irefs st id with
    | .error e => .error e
    | .ok st2 => interpretRefsLoop fm irefs rest st2

def ispeOversizeErr (w h : Nat) : Err :=
  ⟨.Memory_allocation_error, .Security_limit_exceeded,
   "Image size " ++ toString w ++ "x" ++ toString h
     ++ " exceeds the maximum image size 2147483647x2147483647\n"⟩

/-- `Box_clap::get_width_rounded` (box.cc lines 1233-1239). -/
def Box_clap.get_width_rounded (clap_width : Fraction) : Int :=
  let left := (Fraction.sub ⟨0, 1⟩ (Fraction.divInt (Fraction.subInt clap_width 1) 2)).round
  let right := ((Fraction.subInt clap_width 1).divInt 2).round
  right + 1 - left

/-- `Box_clap::get_height_rounded` (box.cc lines 1241-1247). -/
def Box_clap.get_height_rounded (clap_height : Fraction) : Int :=
  let top := (Fraction.sub ⟨0, 1⟩ (Fraction.divInt (Fraction.subInt clap_height 1) 2)).round
  let bottom := ((Fraction.subInt clap_height 1).divInt 2).round
  bottom + 1 - top

/-- The per-image property fold of pass B (heif_context.cc lines 694-737):
`ispe` (with the INT_MAX limit) sets the resolution and raises `ispe_read`;
once `ispe_read` holds, a `clap` replaces the resolution by its rounded
clean-aperture dimensions and an `irot` of 90 or 270 swaps the current
width and height. -/
def resolvePropsLoop (id : Nat) :
    List IpcoProperty → Bool → CtxState → Except Err CtxState
  | [], _, st => .ok st
  | prop :: rest, ispe_read, st =>
    match prop.property with
    | .ispe w h =>
      if intMax ≤ w ∨ intMax ≤ h then
        .error (ispeOversizeErr w h)
      else
        let ia := updateImage st.all_images id
          (fun im => { im with width := (w : Int), height := (h : Int) })
        resolvePropsLoop id rest true { st with all_images := ia }
    | .clap cw ch _ _ =>
      if ispe_read then
        let ia := updateImage st.all_images id
          (fun im => { im with width := Box_clap.get_width_rounded cw,
                               height := Box_clap.get_height_rounded ch })
        resolvePropsLoop id rest ispe_read { st with all_images := ia }
      else resolvePropsLoop id rest ispe_read st
    | .irot rot =>
      if ispe_read ∧ (rot = 90 ∨ rot = 270) then
        let ia := updateImage st.all_images id
          (fun im => { im with width := im.height, height := im.width })
        resolvePropsLoop id rest ispe_read { st with all_images := ia }
      else resolvePropsLoop id rest ispe_read st
    | _ => resolvePropsLoop id rest ispe_read st

/-- Pass B over all images (heif_context.cc lines 684-738). -/
def interpretResolutions (fm : FileModel) :
    List Nat → CtxState → Except Err CtxState
  | [], st => .ok st
  | id :: rest, st =>
    match HeifFile.get_properties fm id with
    | .error e => .error e
    | .ok props =>
      match resolvePropsLoop id props false st with
      | .error e => .error e
      | .ok st2 => interpretResolutions fm rest st2

def noItemDataErr (id : Nat) : Err :=
  ⟨.Invalid_input, .No_item_data, "Item with ID " ++ toString id ++ " has no compressed data"⟩

/-- `HeifFile::get_compressed_image_data` (heif_file.cc lines 286-366):
hvc1 items get the hvcC header prelude followed by the extent bytes; grid,
iovl and Exif items get only the extent bytes; other types are
Unsupported_codec.  (`get_headers` always returns true in the source, so
its failure path is unreachable.) -/
def HeifFile.get_compressed_image_data (fm : FileModel) (file : List Nat) (ID : Nat) :
    Except Err (List Nat) :=
  match (fm.infe_items.find? (fun p => p.1 == ID)).map Prod.snd with
  | none => .error ⟨.Usage_error, .Nonexisting_image_referenced, ""⟩
  | some infe =>
    match fm.iloc_items.find? (fun i => i.item_ID == ID) with
    | none => .error (noItemDataErr ID)
    | some item =>
      if infe.item_type = fourccHvc1 then
        match HeifFile.get_properties fm ID with
        | .error e => .error e
        | .ok props =>
          match (props.filterMap (fun p => match p.property with
                  | .hvcC arr => some arr | _ => none)).head? with
          | none => .error ⟨.Invalid_input, .No_hvcC_box, ""⟩
          | some arrays =>
            let r := Box_iloc.read_data item file fm.idat_box
              (Box_hvcC.get_headers arrays)
            match r.2 with
            | some e => .error e
            | none => .ok r.1
      else if infe.item_type = fourccGrid ∨ infe.item_type = fourccIovl ∨
          infe.item_type = fourccExif then
        let r := Box_iloc.read_data item file fm.idat_box []
        match r.2 with
        | some e => .error e
        | none => .ok r.1
      else
        .error ⟨.Unsupported_feature, .Unsupported_codec, ""⟩

def exifUnassignedErr : Err :=
  ⟨.Invalid_input, .Unspecified, "Exif data not correctly assigned to image"⟩
def exifNonexistErr : Err :=
  ⟨.Invalid_input, .Nonexisting_image_referenced, "Exif data assigned to non-existing image"⟩

/-- One iteration of the metadata loop (heif_context.cc lines 744-782). -/
def interpretMetadataStep (fm : FileModel) (file : List Nat) (st : CtxState)
    (id : Nat) : Except Err CtxState :=
  if HeifFile.get_item_type fm id = fourccExif then
    match HeifFile.get_compressed_image_data fm file id with
    | .error e => .error e
    | .ok data =>
      match fm.iref_box with
      | none => .ok st
      | some irefs =>
        if Box_iref.get_reference_type irefs id = fourccCdsc then
          match Box_iref.get_references irefs id with
          | [exif_image_id] =>
            match findImage st.all_images exif_image_id with
            | none => .error exifNonexistErr
            | some _ =>
              let ia := updateImage st.all_images exif_image_id
                (fun im => { im with metadata := im.metadata ++ [data] })
              .ok { st with all_images := ia }
          | _ => .error exifUnassignedErr
        else .ok st
  else .ok st

/-- The metadata loop over all item ids. -/
def interpretMetadataLoop (fm : FileModel) (file : List Nat) :
    List Nat → CtxState → Except Err CtxState
  | [], st => .ok st
  | id :: rest, st =>
    match interpretMetadataStep fm file st id with
    | .error e => .error e
    | .ok st2 => interpretMetadataLoop fm file rest st2

/-- `HeifContext::interpret_heif_file` (heif_context.cc lines 525-785):
build the image table, require a primary image, process `thmb`/`auxl`
references when an `iref` box exists, resolve resolutions, then attach
Exif metadata. -/
def HeifContext.interpret_heif_file (fm : FileModel) (file : List Nat) :
    Except Err CtxState :=
  let st := buildImages fm
  if st.primary.isNone then .error primaryMissingErr
  else
    match (match fm.iref_box with
           | some irefs => interpretRefsLoop fm irefs (st.all_images.map Prod.fst) st
           | none => .ok st) with
    | .error e => .error e
    | .ok st1 =>
      match interpretResolutions fm (st1.all_images.map Prod.fst) st1 with
      | .error e => .error e
      | .ok st2 =>
        interpretMetadataLoop fm file (fm.infe_items.map Prod.fst) st2

/-- `HeifContext::read_from_memory`: parse the file model, then interpret.
The top-level box reading loop is represented by its result, the parsed
box list. -/
def HeifContext.read_from_memory (boxes : List TopBox) (file : List Nat) :
    Except Err CtxState :=
  match HeifFile.parse_heif_file boxes with
  | .error e => .error e
  | .ok fm => HeifContext.interpret_heif_file fm file

/-! ## C4: ftyp brand gate -/

/-- C4: a file without any ftyp box fails to open with
Invalid_input / No_ftyp_box, and a file whose ftyp box does not list the
`heic` compatible brand fails to open with Unsupported_filetype. -/
theorem C4_ftyp_checks (boxes : List TopBox) (file : List Nat) :
    (topFtyp boxes = none →
      HeifContext.read_from_memory boxes file = .error noFtypErr) ∧
    (∀ f, topFtyp boxes = some f →
      Box_ftyp.has_compatible_brand f fourccHeic = false →
      HeifContext.read_from_memory boxes file = .error unsupportedFiletypeErr) := by
  constructor
  · intro h
    unfold HeifContext.read_from_memory HeifFile.parse_heif_file
    rw [h]
  · intro f hf hb
    unfold HeifContext.read_from_memory HeifFile.parse_heif_file
    rw [hf]
    dsimp only
    rw [if_pos (by simp [hb])]

/-- Witness for C4: a one-box file whose ftyp lists only `mif1`, opened
against empty file bytes. -/
theorem C4_ftyp_checks_witness :
    topFtyp [TopBox.ftyp ⟨0x6d696631, 0, [0x6d696631]⟩] =
      some ⟨0x6d696631, 0, [0x6d696631]⟩ ∧
    Box_ftyp.has_compatible_brand ⟨0x6d696631, 0, [0x6d696631]⟩ fourccHeic = false ∧
    HeifContext.read_from_memory [TopBox.ftyp ⟨0x6d696631, 0, [0x6d696631]⟩] [] =
      .error unsupportedFiletypeErr :=
  ⟨by decide, by decide,
   (C4_ftyp_checks [TopBox.ftyp ⟨0x6d696631, 0, [0x6d696631]⟩] []).2
     ⟨0x6d696631, 0, [0x6d696631]⟩ (by decide) (by decide)⟩

/-! ## Sortedness of the item table built with mapInsert -/

theorem mem_mapInsert {α : Type} (k : Nat) (v : α) :
    ∀ (l : List (Nat × α)) (x : Nat × α), x ∈ mapInsert k v l → x = (k, v) ∨ x ∈ l := by
  intro l
  induction l with
  | nil =>
    intro x hx
    rw [mapInsert] at hx
    simp at hx
    exact Or.inl hx
  | cons p rest ih =>
    intro x hx
    rw [mapInsert] at hx
    by_cases h1 : k < p.1
    · rw [if_pos h1] at hx
      rcases List.mem_cons.mp hx with h | h
      · exact Or.inl h
      · exact Or.inr h
    · rw [if_neg h1] at hx
      by_cases h2 : k = p.1
      · rw [if_pos h2] at hx
        exact Or.inr hx
      · rw [if_neg h2] at hx
        rcases List.mem_cons.mp hx with h | h
        · exact Or.inr (by simp [h])
        · rcases ih x h with h3 | h3
          · exact Or.inl h3
          · exact Or.inr (List.mem_cons_of_mem _ h3)

theorem mapInsert_pairwise {α : Type} (k : Nat) (v : α) :
    ∀ (l : List (Nat × α)), l.Pairwise (fun a b => a.1 < b.1) →
    (mapInsert k v l).Pairwise (fun a b => a.1 < b.1) := by
  intro l
  induction l with
  | nil =>
    intro _
    rw [mapInsert]
    exact List.pairwise_singleton _ _
  | cons p rest ih =>
    intro hp
    rw [List.pairwise_cons] at hp
    rw [mapInsert]
    by_cases h1 : k < p.1
    · rw [if_pos h1]
      refine List.Pairwise.cons ?_ (List.Pairwise.cons hp.1 hp.2)
      intro x hx
      rcases List.mem_cons.mp hx with h | h
      · rw [h]; exact h1
      · exact lt_trans h1 (hp.1 x h)
    · rw [if_neg h1]
      by_cases h2 : k = p.1
      · rw [if_pos h2]
        exact List.Pairwise.cons hp.1 hp.2
      · rw [if_neg h2]
        refine List.Pairwise.cons ?_ (ih hp.2)
        intro x hx
        rcases mem_mapInsert k v rest x hx with h | h
        · rw [h]; omega
        · exact hp.1 x h

theorem foldl_mapInsert_pairwise (l : List InfeBox) :
    ∀ acc : List (Nat × InfeBox), acc.Pairwise (fun a b => a.1 < b.1) →
    (l.foldl (fun m i => mapInsert i.item_ID i m) acc).Pairwise
      (fun a b => a.1 < b.1) := by
  induction l with
  | nil => intro acc h; exact h
  | cons i rest ih =>
    intro acc h
    exact ih _ (mapInsert_pairwise i.item_ID i acc h)

/-- The item table produced by `parse_heif_file` is strictly sorted by item
id (it is an `std::map`). -/
theorem parse_infe_items_pairwise (boxes : List TopBox) (fm : FileModel)
    (h : HeifFile.parse_heif_file boxes = .ok fm) :
    fm.infe_items.Pairwise (fun a b => a.1 < b.1) := by
  unfold HeifFile.parse_heif_file at h
  repeat' split at h
  all_goals cases h
  exact foldl_mapInsert_pairwise _ [] List.Pairwise.nil

/-! ## C10: a hidden pitm item yields the primary-image error -/

theorem buildImages_primary_step (fm : FileModel) :
    ∀ (l : List (Nat × InfeBox)) (st : CtxState),
    (∀ p ∈ l, p.1 = fm.primary_image_ID → p.2.is_hidden_item = true) →
    st.primary = none →
    (l.foldl (fun st p =>
      let id := p.1
      let infe := p.2
      if item_type_is_image infe.item_type then
        if infe.is_hidden_item then
          { st with all_images := mapInsert id { id := id } st.all_images }
        else
          let img : Image := { id := id, is_primary := decide (id = fm.primary_image_ID) }
          { all_images := mapInsert id img st.all_images,
            top_level := st.top_level ++ [id],
            primary := if id = fm.primary_image_ID then some id else st.primary }
      else st) st).primary = none := by
  intro l
  induction l with
  | nil => intro st _ hst; exact hst
  | cons p rest ih =>
    intro st hl hst
    rw [List.foldl_cons]
    refine ih _ (fun q hq hq1 => hl q (List.mem_cons_of_mem _ hq) hq1) ?_
    by_cases him : item_type_is_image p.2.item_type
    · rw [if_pos him]
      by_cases hhid : p.2.is_hidden_item
      · rw [if_pos hhid]
        exact hst
      · rw [if_neg hhid]
        dsimp only
        by_cases hp : p.1 = fm.primary_image_ID
        · exact absurd (hl p (List.mem_cons_self _ _) hp) (by simpa using hhid)
        · rw [if_neg hp]
          exact hst
    · rw [if_neg him]
      exact hst

/-- C10: when the item whose id equals `pitm.item_id` exists in the parsed
file but is a hidden item, opening the file fails with the
Invalid_input / Nonexisting_image_referenced primary-image error, exactly
as if the pitm id were absent. -/
theorem C10_hidden_primary (boxes : List TopBox) (file : List Nat)
    (fm : FileModel) (entry : Nat × InfeBox)
    (hparse : HeifFile.parse_heif_file boxes = .ok fm)
    (hlook : fm.infe_items.find? (fun p => p.1 == fm.primary_image_ID) = some entry)
    (hhid : entry.2.is_hidden_item = true) :
    HeifContext.read_from_memory boxes file = .error primaryMissingErr := by
  have hpw := parse_infe_items_pairwise boxes fm hparse
  have hnodup : (fm.infe_items.map Prod.fst).Nodup := by
    rw [List.Nodup, List.pairwise_map]
    exact hpw.imp (fun hab => Nat.ne_of_lt hab)
  have hmem := List.mem_of_find?_eq_some hlook
  have hkey : entry.1 = fm.primary_image_ID := by
    have := List.find?_some hlook
    simpa using this
  have hall : ∀ p ∈ fm.infe_items, p.1 = fm.primary_image_ID →
      p.2.is_hidden_item = true := by
    intro p hp hp1
    have : p = entry :=
      List.inj_on_of_nodup_map hnodup hp hmem (by rw [hp1, hkey])
    rw [this]
    exact hhid
  have hprim : (buildImages fm).primary = none := by
    unfold buildImages
    exact buildImages_primary_step fm fm.infe_items ⟨[], [], none⟩ hall rfl
  unfold HeifContext.read_from_memory
  rw [hparse]
  dsimp only
  unfold HeifContext.interpret_heif_file
  dsimp only
  rw [hprim]
  rfl

/-- Witness for C10: a minimal file whose only item is a hidden hvc1 item
with the pitm id. -/
theorem C10_hidden_primary_witness :
    HeifFile.parse_heif_file
        [TopBox.ftyp ⟨0x6d696631, 0, [fourccHeic]⟩,
         TopBox.meta [.hdlr fourccPict, .pitm 1,
                      .iprp [.ipco [], .ipma []], .iloc [],
                      .iinf [⟨1, 2, 1, fourccHvc1⟩]]]
      = .ok ⟨1, [(1, ⟨1, 2, 1, fourccHvc1⟩)], [], [], [], none, none⟩ ∧
    ([(1, (⟨1, 2, 1, fourccHvc1⟩ : InfeBox))].find? (fun p => p.1 == 1)
      = some (1, ⟨1, 2, 1, fourccHvc1⟩)) ∧
    (⟨1, 2, 1, fourccHvc1⟩ : InfeBox).is_hidden_item = true ∧
    HeifContext.read_from_memory
        [TopBox.ftyp ⟨0x6d696631, 0, [fourccHeic]⟩,
         TopBox.meta [.hdlr fourccPict, .pitm 1,
                      .iprp [.ipco [], .ipma []], .iloc [],
                      .iinf [⟨1, 2, 1, fourccHvc1⟩]]] []
      = .error primaryMissingErr :=
  ⟨rfl, by decide, by decide,
   C10_hidden_primary _ [] ⟨1, [(1, ⟨1, 2, 1, fourccHvc1⟩)], [], [], [], none, none⟩
     (1, ⟨1, 2, 1, fourccHvc1⟩) rfl (by decide) (by decide)⟩

/-! ## C5: pass-B resolution computation -/

/-- The displayed-resolution fold exactly as the claim words it: `ispe` sets
`(width, height)` with dimensions at or above INT_MAX rejected as
Security_limit_exceeded; a `clap` occurring after an ispe replaces the size
by the clap box's rounded clean-aperture width and height; an `irot` of 90
or 270 occurring after an ispe swaps the current width and height; every
other property leaves the resolution unchanged. -/
def specDisplayedResolution : List IpcoProperty → Option (Int × Int) →
    Except Err (Option (Int × Int))
  | [], acc => .ok acc
  | ⟨_, .ispe w h⟩ :: rest, _ =>
    if intMax ≤ w ∨ intMax ≤ h then .error (ispeOversizeErr w h)
    else specDisplayedResolution rest (some ((w : Int), (h : Int)))
  | ⟨_, .clap cw ch _ _⟩ :: rest, some _ =>
    specDisplayedResolution rest
      (some (Box_clap.get_width_rounded cw, Box_clap.get_height_rounded ch))
  | ⟨_, .clap _ _ _ _⟩ :: rest, none => specDisplayedResolution rest none
  | ⟨_, .irot rot⟩ :: rest, some wh =>
    if rot = 90 ∨ rot = 270 then specDisplayedResolution rest (some (wh.2, wh.1))
    else specDisplayedResolution rest (some wh)
  | ⟨_, .irot _⟩ :: rest, none => specDisplayedResolution rest none
  | _ :: rest, acc => specDisplayedResolution rest acc

/-- Apply a computed displayed resolution to an image (no change when the
fold never saw an ispe). -/
def setDims : Option (Int × Int) → Image → Image
  | none, im => im
  | some wh, im => { im with width := wh.1, height := wh.2 }

theorem updateImage_updateImage (l : List (Nat × Image)) (id : Nat)
    (f g : Image → Image) :
    updateImage (updateImage l id f) id g = updateImage l id (fun im => g (f im)) := by
  unfold updateImage
  rw [List.map_map]
  apply List.map_congr_left
  intro p _
  by_cases h : p.1 = id
  · simp [h]
  · simp [h]

theorem updateImage_id (l : List (Nat × Image)) (id : Nat) (f : Image → Image)
    (h : ∀ p ∈ l, p.1 = id → f p.2 = p.2) : updateImage l id f = l := by
  unfold updateImage
  induction l with
  | nil => rfl
  | cons p rest ih =>
    simp only [List.map_cons]
    rw [ih (fun q hq => h q (List.mem_cons_of_mem _ hq))]
    by_cases hp : p.1 = id
    · rw [if_pos hp, h p (List.mem_cons_self _ _) hp]
    · rw [if_neg hp]

theorem updateImage_invariant (l : List (Nat × Image)) (id : Nat)
    (f : Image → Image) (P : Image → Prop)
    (h : ∀ p ∈ l, p.1 = id → P (f p.2)) :
    ∀ p ∈ updateImage l id f, p.1 = id → P p.2 := by
  intro p hp hpid
  unfold updateImage at hp
  rcases List.mem_map.mp hp with ⟨q, hq, hpq⟩
  by_cases hqid : q.1 = id
  · rw [if_pos hqid] at hpq
    rw [← hpq]
    exact h q hq hqid
  · rw [if_neg hqid] at hpq
    rw [← hpq] at hpid
    exact absurd hpid hqid

theorem specDisplayedResolution_isSome :
    ∀ (props : List IpcoProperty) (acc res : Option (Int × Int)),
    specDisplayedResolution props acc = .ok res → acc.isSome = true →
    res.isSome = true := by
  intro props
  induction props with
  | nil =>
    intro acc res h hs
    rw [specDisplayedResolution] at h
    injection h with h2
    rw [← h2]
    exact hs
  | cons prop rest ih =>
    intro acc res h hs
    rcases prop with ⟨ess, pb⟩
    cases pb with
    | ispe w hh =>
      rw [specDisplayedResolution] at h
      by_cases hover : intMax ≤ w ∨ intMax ≤ hh
      · rw [if_pos hover] at h
        exact absurd h (by simp)
      · rw [if_neg hover] at h
        exact ih _ _ h rfl
    | clap cw ch ho vo =>
      cases acc with
      | some wh =>
        rw [specDisplayedResolution] at h
        exact ih _ _ h rfl
      | none => exact absurd hs (by simp)
    | irot rot =>
      cases acc with
      | some wh =>
        rw [specDisplayedResolution] at h
        by_cases hrot : rot = 90 ∨ rot = 270
        · rw [if_pos hrot] at h
          exact ih _ _ h rfl
        · rw [if_neg hrot] at h
          exact ih _ _ h rfl
      | none => exact absurd hs (by simp)
    | imir hor =>
      rw [specDisplayedResolution] at h
      · exact ih _ _ h hs
      all_goals (intros; simp only [IpcoProperty.mk.injEq, reduceCtorEq, and_false, false_and] at *)
    | auxC ty sub =>
      rw [specDisplayedResolution] at h
      · exact ih _ _ h hs
      all_goals (intros; simp only [IpcoProperty.mk.injEq, reduceCtorEq, and_false, false_and] at *)
    | hvcC arr =>
      rw [specDisplayedResolution] at h
      · exact ih _ _ h hs
      all_goals (intros; simp only [IpcoProperty.mk.injEq, reduceCtorEq, and_false, false_and] at *)
    | other t =>
      rw [specDisplayedResolution] at h
      · exact ih _ _ h hs
      all_goals (intros; simp only [IpcoProperty.mk.injEq, reduceCtorEq, and_false, false_and] at *)

theorem resolveLoop_spec (id : Nat) :
    ∀ (props : List IpcoProperty) (imgs : List (Nat × Image)) (tl : List Nat)
      (pr : Option Nat) (acc : Option (Int × Int)) (b : Bool),
    b = acc.isSome →
    (∀ wh, acc = some wh → ∀ p ∈ imgs, p.1 = id →
        p.2.width = wh.1 ∧ p.2.height = wh.2) →
    resolvePropsLoop id props b ⟨imgs, tl, pr⟩ =
      (specDisplayedResolution props acc).map (fun res =>
        ⟨updateImage imgs id (setDims res), tl, pr⟩) := by
  intro props
  induction props with
  | nil =>
    intro imgs tl pr acc b hb hinv
    rw [resolvePropsLoop, specDisplayedResolution]
    show Except.ok _ = Except.ok _
    congr 1
    show (⟨imgs, tl, pr⟩ : CtxState) = ⟨updateImage imgs id (setDims acc), tl, pr⟩
    have hup : updateImage imgs id (setDims acc) = imgs := by
      cases acc with
      | none => exact updateImage_id _ _ _ (fun p _ _ => rfl)
      | some wh =>
        apply updateImage_id
        intro p hp hpid
        rcases hinv wh rfl p hp hpid with ⟨h1, h2⟩
        show ({ p.2 with width := wh.1, height := wh.2 } : Image) = p.2
        rw [← h1, ← h2]
    rw [hup]
  | cons prop rest ih =>
    intro imgs tl pr acc b hb hinv
    rcases prop with ⟨ess, pb⟩
    cases pb with
    | ispe w h =>
      rw [resolvePropsLoop, specDisplayedResolution]
      dsimp only
      by_cases hover : intMax ≤ w ∨ intMax ≤ h
      · rw [if_pos hover, if_pos hover]
        rfl
      · rw [if_neg hover, if_neg hover]
        rw [ih (updateImage imgs id
              (fun im => { im with width := (w : Int), height := (h : Int) })) tl pr
            (some ((w : Int), (h : Int))) true rfl
            (by
              intro wh hwh p hp hpid
              injection hwh with hwh2
              subst hwh2
              exact updateImage_invariant imgs id _
                (fun im => im.width = (w : Int) ∧ im.height = (h : Int))
                (fun q _ _ => ⟨rfl, rfl⟩) p hp hpid)]
        cases hspec : specDisplayedResolution rest (some ((w : Int), (h : Int))) with
        | error e => rfl
        | ok res =>
          have hres := specDisplayedResolution_isSome rest _ res hspec rfl
          rcases res with _ | wh2
          · simp at hres
          · dsimp only [Except.map]
            congr 2
            exact (updateImage_updateImage _ _ _ _).trans
              (congrArg _ (funext fun im => rfl))
    | clap cw ch ho vo =>
      cases acc with
      | none =>
        rw [resolvePropsLoop, specDisplayedResolution]
        dsimp only
        rw [hb]
        rw [if_neg (by simp)]
        exact ih imgs tl pr none false rfl (by intro wh hwh; cases hwh)
      | some wh =>
        rw [resolvePropsLoop, specDisplayedResolution]
        dsimp only
        rw [hb]
        rw [if_pos (show (some wh).isSome = true from rfl)]
        rw [ih (updateImage imgs id
              (fun im => { im with width := Box_clap.get_width_rounded cw,
                                   height := Box_clap.get_height_rounded ch })) tl pr
            (some (Box_clap.get_width_rounded cw, Box_clap.get_height_rounded ch))
            ((some wh).isSome) rfl
            (by
              intro wh2 hwh2 p hp hpid
              injection hwh2 with hwh3
              subst hwh3
              exact updateImage_invariant imgs id _
                (fun im => im.width = Box_clap.get_width_rounded cw ∧
                           im.height = Box_clap.get_height_rounded ch)
                (fun q _ _ => ⟨rfl, rfl⟩) p hp hpid)]
        cases hspec : specDisplayedResolution rest
            (some (Box_clap.get_width_rounded cw, Box_clap.get_height_rounded ch)) with
        | error e => rfl
        | ok res =>
          have hres := specDisplayedResolution_isSome rest _ res hspec rfl
          rcases res with _ | wh2
          · simp at hres
          · dsimp only [Except.map]
            congr 2
            exact (updateImage_updateImage _ _ _ _).trans
              (congrArg _ (funext fun im => rfl))
    | irot rot =>
      cases acc with
      | none =>
        rw [resolvePropsLoop, specDisplayedResolution]
        dsimp only
        rw [hb]
        rw [if_neg (by simp)]
        exact ih imgs tl pr none false rfl (by intro wh hwh; cases hwh)
      | some wh =>
        rw [resolvePropsLoop, specDisplayedResolution]
        dsimp only
        rw [hb]
        by_cases hrot : rot = 90 ∨ rot = 270
        · rw [if_pos (show (some wh).isSome = true ∧ (rot = 90 ∨ rot = 270) from ⟨rfl, hrot⟩),
              if_pos hrot]
          rw [ih (updateImage imgs id
                (fun im => { im with width := im.height, height := im.width })) tl pr
              (some (wh.2, wh.1)) ((some wh).isSome) rfl
              (by
                intro wh2 hwh2 p hp hpid
                injection hwh2 with hwh3
                subst hwh3
                refine updateImage_invariant imgs id _
                  (fun im => im.width = wh.2 ∧ im.height = wh.1)
                  ?_ p hp hpid
                intro q hq hqid
                rcases hinv wh rfl q hq hqid with ⟨h1, h2⟩
                exact ⟨by simpa using h2, by simpa using h1⟩)]
          cases hspec : specDisplayedResolution rest (some (wh.2, wh.1)) with
          | error e => rfl
          | ok res =>
            have hres := specDisplayedResolution_isSome rest _ res hspec rfl
            rcases res with _ | wh2
            · simp at hres
            · dsimp only [Except.map]
              congr 2
              exact (updateImage_updateImage _ _ _ _).trans
                (congrArg _ (funext fun im => rfl))
        · rw [if_neg (by simp [hrot]), if_neg hrot]
          exact ih imgs tl pr (some wh) ((some wh).isSome) rfl hinv
    | imir hor =>
      rw [resolvePropsLoop, specDisplayedResolution]
      · dsimp only
        exact ih imgs tl pr acc b hb hinv
      all_goals (intros; simp only [IpcoProperty.mk.injEq, reduceCtorEq, and_false, false_and] at *)
    | auxC ty sub =>
      rw [resolvePropsLoop, specDisplayedResolution]
      · dsimp only
        exact ih imgs tl pr acc b hb hinv
      all_goals (intros; simp only [IpcoProperty.mk.injEq, reduceCtorEq, and_false, false_and] at *)
    | hvcC arr =>
      rw [resolvePropsLoop, specDisplayedResolution]
      · dsimp only
        exact ih imgs tl pr acc b hb hinv
      all_goals (intros; simp only [IpcoProperty.mk.injEq, reduceCtorEq, and_false, false_and] at *)
    | other t =>
      rw [resolvePropsLoop, specDisplayedResolution]
      · dsimp only
        exact ih imgs tl pr acc b hb hinv
      all_goals (intros; simp only [IpcoProperty.mk.injEq, reduceCtorEq, and_false, false_and] at *)

/-- C5: the pass-B property fold of `interpret_heif_file` computes exactly
the displayed resolution described by the claim: `ispe` sets the size (with
either dimension >= INT_MAX rejected as Security_limit_exceeded), a `clap`
after an ispe replaces the size by the clap box's rounded clean-aperture
dimensions, an `irot` of 90 or 270 after an ispe swaps the current width
and height, and the fold fails exactly when the spec-side fold fails, with
the same error. -/
theorem C5_resolution (id : Nat) (props : List IpcoProperty) (st : CtxState) :
    resolvePropsLoop id props false st =
      (specDisplayedResolution props none).map (fun res =>
        { st with all_images := updateImage st.all_images id (setDims res) }) := by
  obtain ⟨imgs, tl, pr⟩ := st
  exact resolveLoop_spec id props imgs tl pr none false rfl
    (by intro wh hwh; cases hwh)

/-! ## C1: thumbnail reference invariants -/

theorem findImage_updateImage (l : List (Nat × Image)) (k k2 : Nat)
    (f : Image → Image) :
    findImage (updateImage l k f) k2 =
      if k2 = k then (findImage l k2).map f else findImage l k2 := by
  induction l with
  | nil => by_cases h : k2 = k <;> simp [updateImage, findImage, h]
  | cons p rest ih =>
    by_cases hp : p.1 = k <;> by_cases hm : p.1 = k2 <;>
      by_cases hk : k2 = k <;>
      simp_all [updateImage, findImage, List.find?_cons]

theorem keys_updateImage (l : List (Nat × Image)) (k : Nat) (f : Image → Image) :
    (updateImage l k f).map Prod.fst = l.map Prod.fst := by
  unfold updateImage
  rw [List.map_map]
  apply List.map_congr_left
  intro p _
  by_cases h : p.1 = k <;> simp [h]

theorem findImage_isSome_iff (l : List (Nat × Image)) (k : Nat) :
    (findImage l k).isSome = true ↔ k ∈ l.map Prod.fst := by
  induction l with
  | nil => simp [findImage]
  | cons p rest ih =>
    by_cases h : p.1 = k
    · simp_all [findImage, List.find?_cons]
    · have h2 : ¬ k = p.1 := fun hh => h hh.symm
      simp_all [findImage, List.find?_cons]

theorem mapThumb_update_pres (l : List (Nat × Image)) (k : Nat)
    (f : Image → Image) (id : Nat)
    (h : ∀ im, (f im).thumbnail_of = im.thumbnail_of) :
    (findImage (updateImage l k f) id).map Image.thumbnail_of =
      (findImage l id).map Image.thumbnail_of := by
  rw [findImage_updateImage]
  by_cases hk : id = k
  · rw [if_pos hk, Option.map_map]
    cases findImage l id with
    | none => rfl
    | some im => simp [Function.comp, h im]
  · rw [if_neg hk]

theorem mapThumb_update_ne (l : List (Nat × Image)) (k : Nat)
    (f : Image → Image) (id : Nat) (h : id ≠ k) :
    (findImage (updateImage l k f) id).map Image.thumbnail_of =
      (findImage l id).map Image.thumbnail_of := by
  rw [findImage_updateImage, if_neg h]

theorem thumbs_mem_update (l : List (Nat × Image)) (k : Nat)
    (f : Image → Image) (t id : Nat) (m : Image)
    (hsub : ∀ im, im.thumbnails ⊆ (f im).thumbnails)
    (hfind : findImage l t = some m) (hmem : id ∈ m.thumbnails) :
    ∃ m2, findImage (updateImage l k f) t = some m2 ∧ id ∈ m2.thumbnails := by
  rw [findImage_updateImage]
  by_cases hk : t = k
  · rw [if_pos hk, hfind]
    exact ⟨f m, rfl, hsub m hmem⟩
  · rw [if_neg hk]
    exact ⟨m, hfind, hmem⟩

theorem buildImages_step_pairwise (fm : FileModel) :
    ∀ (l : List (Nat × InfeBox)) (st : CtxState),
    st.all_images.Pairwise (fun a b => a.1 < b.1) →
    ((l.foldl (fun st p =>
      let id := p.1
      let infe := p.2
      if item_type_is_image infe.item_type then
        if infe.is_hidden_item then
          { st with all_images := mapInsert id { id := id } st.all_images }
        else
          let img : Image := { id := id, is_primary := decide (id = fm.primary_image_ID) }
          { all_images := mapInsert id img st.all_images,
            top_level := st.top_level ++ [id],
            primary := if id = fm.primary_image_ID then some id else st.primary }
      else st) st).all_images).Pairwise (fun a b => a.1 < b.1) := by
  intro l
  induction l with
  | nil => intro st h; exact h
  | cons p l ih =>
    intro st h
    rw [List.foldl_cons]
    apply ih
    dsimp only
    by_cases h1 : item_type_is_image p.2.item_type
    · rw [if_pos h1]
      by_cases h2 : p.2.is_hidden_item
      · rw [if_pos h2]
        exact mapInsert_pairwise _ _ _ h
      · rw [if_neg h2]
        exact mapInsert_pairwise _ _ _ h
    · rw [if_neg h1]
      exact h

theorem buildImages_pairwise (fm : FileModel) :
    ((buildImages fm).all_images).Pairwise (fun a b => a.1 < b.1) := by
  unfold buildImages
  exact buildImages_step_pairwise fm fm.infe_items ⟨[], [], none⟩ List.Pairwise.nil

theorem refStep_thmb_ok (fm : FileModel) (irefs : List IrefReference)
    (st st2 : CtxState) (id : Nat)
    (ht : Box_iref.get_reference_type irefs id = fourccThmb)
    (hok : interpretRefStep fm irefs st id = .ok st2) :
    ∃ t master,
      Box_iref.get_references irefs id = [t] ∧
      findImage (updateImage st.all_images id
        (fun im => { im with thumbnail_of := some t })) t = some master ∧
      master.thumbnail_of = none ∧
      st2 = { all_images := updateImage (updateImage st.all_images id
                  (fun im => { im with thumbnail_of := some t })) t
                  (fun im => { im with thumbnails := im.thumbnails ++ [id] }),
              top_level := st.top_level.filter (fun x => x ≠ id),
              primary := st.primary } := by
  unfold interpretRefStep at hok
  dsimp only at hok
  rw [if_pos ht] at hok
  cases hrefs : Box_iref.get_references irefs id with
  | nil =>
    rw [hrefs] at hok
    cases hok
  | cons m rest =>
    cases rest with
    | cons m2 rest2 =>
      rw [hrefs] at hok
      cases hok
    | nil =>
      rw [hrefs] at hok
      dsimp only at hok
      cases hfind : findImage (updateImage st.all_images id
          (fun im => { im with thumbnail_of := some m })) m with
      | none =>
        rw [hfind] at hok
        cases hok
      | some master =>
        rw [hfind] at hok
        dsimp only at hok
        by_cases hsome : master.thumbnail_of.isSome
        · rw [if_pos hsome] at hok
          cases hok
        · rw [if_neg hsome] at hok
          cases hok
          exact ⟨m, master, rfl, hfind,
            Option.not_isSome_iff_eq_none.mp hsome, rfl⟩

/-- The thumbnail list stored under an id ([] when the id is absent). -/
def thumbsOf (l : List (Nat × Image)) (t : Nat) : List Nat :=
  ((findImage l t).map Image.thumbnails).getD []

theorem thumbsOf_update (l : List (Nat × Image)) (k : Nat) (f : Image → Image)
    (t id : Nat)
    (h : ∀ im x, x ∈ im.thumbnails → x ∈ (f im).thumbnails)
    (hm : id ∈ thumbsOf l t) : id ∈ thumbsOf (updateImage l k f) t := by
  unfold thumbsOf at *
  rw [findImage_updateImage]
  by_cases hk : t = k
  · rw [if_pos hk]
    cases hfind : findImage l t with
    | none =>
      rw [hfind] at hm
      cases hm
    | some m =>
      rw [hfind] at hm
      exact h m id hm
  · rw [if_neg hk]
    exact hm

theorem refStep_pres (fm : FileModel) (irefs : List IrefReference)
    (st st2 : CtxState) (id2 : Nat)
    (hok : interpretRefStep fm irefs st id2 = .ok st2) :
    st2.all_images.map Prod.fst = st.all_images.map Prod.fst ∧
    (∀ x, x ∈ st2.top_level → x ∈ st.top_level) ∧
    (∀ id, id ≠ id2 →
      (findImage st2.all_images id).map Image.thumbnail_of =
        (findImage st.all_images id).map Image.thumbnail_of) ∧
    (∀ t id, id ∈ thumbsOf st.all_images t → id ∈ thumbsOf st2.all_images t) := by
  unfold interpretRefStep at hok
  dsimp only at hok
  repeat' split at hok
  all_goals cases hok
  all_goals try dsimp only
  all_goals refine ⟨?_, fun x hx => ?_, fun id3 hne => ?_, fun t id3 hm => ?_⟩
  all_goals first
  | rfl
  | exact hx
  | exact (List.mem_filter.mp hx).1
  | exact hm
  | simp only [keys_updateImage]
  | exact (mapThumb_update_pres _ _ _ _ (by intro im; rfl)).trans
      (mapThumb_update_ne _ _ _ _ hne)
  | exact (mapThumb_update_pres _ _ _ _ (by intro im; rfl)).trans
      ((mapThumb_update_pres _ _ _ _ (by intro im; rfl)).trans
        ((mapThumb_update_pres _ _ _ _ (by intro im; rfl)).trans
          (mapThumb_update_pres _ _ _ _ (by intro im; rfl))))
  | exact (mapThumb_update_pres _ _ _ _ (by intro im; rfl)).trans
      (mapThumb_update_pres _ _ _ _ (by intro im; rfl))
  | exact thumbsOf_update _ _ _ _ _ (by intro im x hx2; exact List.mem_append_left _ hx2)
      (thumbsOf_update _ _ _ _ _ (by intro im x hx2; exact hx2) hm)
  | exact thumbsOf_update _ _ _ _ _ (by intro im x hx2; exact hx2)
      (thumbsOf_update _ _ _ _ _ (by intro im x hx2; exact hx2)
        (thumbsOf_update _ _ _ _ _ (by intro im x hx2; exact hx2)
          (thumbsOf_update _ _ _ _ _ (by intro im x hx2; exact hx2) hm)))
  | exact thumbsOf_update _ _ _ _ _ (by intro im x hx2; exact hx2)
      (thumbsOf_update _ _ _ _ _ (by intro im x hx2; exact hx2) hm)

theorem refsLoop_append (fm : FileModel) (irefs : List IrefReference) :
    ∀ (l1 l2 : List Nat) (st st2 : CtxState),
    interpretRefsLoop fm irefs (l1 ++ l2) st = .ok st2 →
    ∃ stm, interpretRefsLoop fm irefs l1 st = .ok stm ∧
      interpretRefsLoop fm irefs l2 stm = .ok st2 := by
  intro l1
  induction l1 with
  | nil =>
    intro l2 st st2 h
    exact ⟨st, rfl, h⟩
  | cons a l1 ih =>
    intro l2 st st2 h
    rw [List.cons_append, interpretRefsLoop] at h
    cases hstep : interpretRefStep fm irefs st a with
    | error e =>
      rw [hstep] at h
      cases h
    | ok stA =>
      rw [hstep] at h
      rcases ih l2 stA st2 h with ⟨stm, h1, h2⟩
      refine ⟨stm, ?_, h2⟩
      rw [interpretRefsLoop, hstep]
      exact h1

theorem refsLoop_pres (fm : FileModel) (irefs : List IrefReference) :
    ∀ (l : List Nat) (st st2 : CtxState),
    interpretRefsLoop fm irefs l st = .ok st2 →
    st2.all_images.map Prod.fst = st.all_images.map Prod.fst ∧
    (∀ x, x ∈ st2.top_level → x ∈ st.top_level) ∧
    (∀ id, id ∉ l →
      (findImage st2.all_images id).map Image.thumbnail_of =
        (findImage st.all_images id).map Image.thumbnail_of) ∧
    (∀ t id, id ∈ thumbsOf st.all_images t → id ∈ thumbsOf st2.all_images t) := by
  intro l
  induction l with
  | nil =>
    intro st st2 h
    rw [interpretRefsLoop] at h
    cases h
    exact ⟨rfl, fun x hx => hx, fun _ _ => rfl, fun t id hm => hm⟩
  | cons a l ih =>
    intro st st2 h
    rw [interpretRefsLoop] at h
    cases hstep : interpretRefStep fm irefs st a with
    | error e =>
      rw [hstep] at h
      cases h
    | ok stA =>
      rw [hstep] at h
      rcases ih stA st2 h with ⟨ik, it, im, ith⟩
      rcases refStep_pres fm irefs st stA a hstep with ⟨sk, stp, sm, sth⟩
      refine ⟨ik.trans sk, fun x hx => stp x (it x hx), ?_, ?_⟩
      · intro id hid
        have h1 : id ∉ l := fun hh => hid (List.mem_cons_of_mem _ hh)
        have h2 : id ≠ a := fun hh => hid (hh ▸ List.mem_cons_self _ _)
        exact (im id h1).trans (sm id h2)
      · intro t id hm
        exact ith t id (sth t id hm)

theorem resolutions_pres (fm : FileModel) :
    ∀ (l : List Nat) (st st2 : CtxState),
    interpretResolutions fm l st = .ok st2 →
    (∀ id, (findImage st2.all_images id).map Image.thumbnail_of =
        (findImage st.all_images id).map Image.thumbnail_of) ∧
    (∀ t id, id ∈ thumbsOf st.all_images t → id ∈ thumbsOf st2.all_images t) ∧
    st2.top_level = st.top_level := by
  intro l
  induction l with
  | nil =>
    intro st st2 h
    rw [interpretResolutions] at h
    cases h
    exact ⟨fun _ => rfl, fun t id hm => hm, rfl⟩
  | cons a l ih =>
    intro st st2 h
    rw [interpretResolutions] at h
    cases hprops : HeifFile.get_properties fm a with
    | error e =>
      rw [hprops] at h
      cases h
    | ok props =>
      rw [hprops] at h
      dsimp only at h
      obtain ⟨imgs, tl, pr⟩ := st
      rw [resolveLoop_spec a props imgs tl pr none false rfl
        (by intro wh hwh; cases hwh)] at h
      cases hspec : specDisplayedResolution props none with
      | error e =>
        rw [hspec] at h
        cases h
      | ok res =>
        rw [hspec] at h
        dsimp only [Except.map] at h
        rcases ih _ st2 h with ⟨im, ith, itl⟩
        refine ⟨?_, ?_, itl⟩
        · intro id
          refine (im id).trans ?_
          exact mapThumb_update_pres _ _ _ _ (by intro imx; cases res <;> rfl)
        · intro t id hm
          refine ith t id ?_
          exact thumbsOf_update _ _ _ _ _
            (by intro imx x hx; cases res <;> exact hx) hm

theorem metadata_pres (fm : FileModel) (file : List Nat) :
    ∀ (l : List Nat) (st st2 : CtxState),
    interpretMetadataLoop fm file l st = .ok st2 →
    (∀ id, (findImage st2.all_images id).map Image.thumbnail_of =
        (findImage st.all_images id).map Image.thumbnail_of) ∧
    (∀ t id, id ∈ thumbsOf st.all_images t → id ∈ thumbsOf st2.all_images t) ∧
    st2.top_level = st.top_level := by
  intro l
  induction l with
  | nil =>
    intro st st2 h
    rw [interpretMetadataLoop] at h
    cases h
    exact ⟨fun _ => rfl, fun t id hm => hm, rfl⟩
  | cons a l ih =>
    intro st st2 h
    rw [interpretMetadataLoop] at h
    cases hstep : interpretMetadataStep fm file st a with
    | error e =>
      rw [hstep] at h
      cases h
    | ok stA =>
      rw [hstep] at h
      rcases ih stA st2 h with ⟨im, ith, itl⟩
      have hfacts : (∀ id, (findImage stA.all_images id).map Image.thumbnail_of =
            (findImage st.all_images id).map Image.thumbnail_of) ∧
          (∀ t id, id ∈ thumbsOf st.all_images t → id ∈ thumbsOf stA.all_images t) ∧
          stA.top_level = st.top_level := by
        unfold interpretMetadataStep at hstep
        repeat' split at hstep
        all_goals cases hstep
        all_goals try dsimp only
        all_goals refine ⟨fun id2 => ?_, fun t id2 hm => ?_, rfl⟩
        all_goals first
        | rfl
        | exact hm
        | exact mapThumb_update_pres _ _ _ _ (by intro imx; rfl)
        | exact thumbsOf_update _ _ _ _ _ (by intro imx x hx; exact hx) hm
      rcases hfacts with ⟨fm1, fm2, fm3⟩
      exact ⟨fun id2 => (im id2).trans (fm1 id2),
        fun t id2 hm => ith t id2 (fm2 t id2 hm),
        itl.trans fm3⟩

theorem refStep_thmb_facts (fm : FileModel) (irefs : List IrefReference)
    (st st2 : CtxState) (id : Nat)
    (ht : Box_iref.get_reference_type irefs id = fourccThmb)
    (hok : interpretRefStep fm irefs st id = .ok st2)
    (hin : id ∈ st.all_images.map Prod.fst) :
    ∃ t, Box_iref.get_references irefs id = [t] ∧ t ≠ id ∧
      (findImage st.all_images t).map Image.thumbnail_of = some none ∧
      (findImage st2.all_images id).map Image.thumbnail_of = some (some t) ∧
      id ∈ thumbsOf st2.all_images t ∧
      id ∉ st2.top_level := by
  rcases refStep_thmb_ok fm irefs st st2 id ht hok with
    ⟨t, master, hrefs, hfind, hnone, hst2⟩
  have hsome : (findImage st.all_images id).isSome = true :=
    (findImage_isSome_iff _ _).mpr hin
  rcases Option.isSome_iff_exists.mp hsome with ⟨im, him⟩
  have htne : t ≠ id := by
    intro h
    subst h
    rw [findImage_updateImage, if_pos rfl, him] at hfind
    injection hfind with hf
    rw [← hf] at hnone
    simp at hnone
  have hstfind : findImage st.all_images t = some master := by
    rw [findImage_updateImage, if_neg htne] at hfind
    exact hfind
  refine ⟨t, hrefs, htne, ?_, ?_, ?_, ?_⟩
  · rw [hstfind]
    simp [hnone]
  · rw [hst2]
    dsimp only
    rw [mapThumb_update_ne _ _ _ _ (Ne.symm htne)]
    rw [findImage_updateImage, if_pos rfl, him]
    rfl
  · rw [hst2]
    dsimp only
    unfold thumbsOf
    rw [findImage_updateImage, if_pos rfl, hfind]
    exact List.mem_append_right _ (List.mem_singleton.mpr rfl)
  · rw [hst2]
    dsimp only
    intro hmem
    rcases List.mem_filter.mp hmem with ⟨_, hdec⟩
    simp at hdec

/-- C1 (amended): after `interpret_heif_file` succeeds, every image id in
the image table that carries a `thmb` reference has exactly one reference
target, and that target is a different id that exists in the image table;
the image is recorded as thumbnail-of the target, appears in the target's
thumbnail list, and is removed from the top-level image list.  The target
had not yet been marked as a thumbnail when the image was processed: since
the loop runs in increasing id order, if the target itself carries a `thmb`
reference it must occur strictly after the image in the iteration order
(otherwise the thumbnail-of-thumbnail error is raised), but the target may
still become a thumbnail later in the loop. -/
theorem C1_thumbnail_invariant (fm : FileModel) (file : List Nat)
    (irefs : List IrefReference) (st : CtxState) (id : Nat)
    (hiref : fm.iref_box = some irefs)
    (hok : HeifContext.interpret_heif_file fm file = .ok st)
    (hid : id ∈ (buildImages fm).all_images.map Prod.fst)
    (hthmb : Box_iref.get_reference_type irefs id = fourccThmb) :
    ∃ t, Box_iref.get_references irefs id = [t] ∧ t ≠ id ∧
      (∃ master, findImage st.all_images t = some master ∧ id ∈ master.thumbnails) ∧
      (findImage st.all_images id).map Image.thumbnail_of = some (some t) ∧
      id ∉ st.top_level ∧
      (Box_iref.get_reference_type irefs t = fourccThmb →
        ∃ l1 l2, (buildImages fm).all_images.map Prod.fst = l1 ++ id :: l2 ∧
          t ∈ l2) := by
  unfold HeifContext.interpret_heif_file at hok
  dsimp only at hok
  rw [hiref] at hok
  dsimp only at hok
  by_cases hprim : (buildImages fm).primary.isNone
  · rw [if_pos hprim] at hok
    cases hok
  · rw [if_neg hprim] at hok
    cases hloop : interpretRefsLoop fm irefs
        ((buildImages fm).all_images.map Prod.fst) (buildImages fm) with
    | error e =>
      rw [hloop] at hok
      cases hok
    | ok st1 =>
      rw [hloop] at hok
      dsimp only at hok
      cases hres : interpretResolutions fm (st1.all_images.map Prod.fst) st1 with
      | error e =>
        rw [hres] at hok
        cases hok
      | ok st2 =>
        rw [hres] at hok
        dsimp only at hok
        have hpw := buildImages_pairwise fm
        have hnd : ((buildImages fm).all_images.map Prod.fst).Nodup :=
          List.Pairwise.imp (fun h => Nat.ne_of_lt h) (List.pairwise_map.mpr hpw)
        rcases List.append_of_mem hid with ⟨l1, l2, hsplit⟩
        rw [hsplit] at hloop
        rcases refsLoop_append fm irefs l1 (id :: l2) (buildImages fm) st1 hloop
          with ⟨stA, hA, hB⟩
        rw [interpretRefsLoop] at hB
        cases hstep : interpretRefStep fm irefs stA id with
        | error e =>
          rw [hstep] at hB
          cases hB
        | ok stB =>
          rw [hstep] at hB
          have hkA := (refsLoop_pres fm irefs l1 (buildImages fm) stA hA).1
          have hidA : id ∈ stA.all_images.map Prod.fst := by
            rw [hkA]
            exact hid
          rcases refStep_thmb_facts fm irefs stA stB id hthmb hstep hidA
            with ⟨t, hrefs, htne, hmnone, hmapB, hthB, htlB⟩
          have hid_l2 : id ∉ l2 := by
            have hnd2 := hnd
            rw [hsplit] at hnd2
            rcases List.nodup_append.mp hnd2 with ⟨_, h2, _⟩
            exact (List.nodup_cons.mp h2).1
          rcases refsLoop_pres fm irefs l2 stB st1 hB with ⟨pk, ptl, pm, pth⟩
          rcases resolutions_pres fm _ st1 st2 hres with ⟨rm, rth, rtl⟩
          rcases metadata_pres fm file _ st2 st hok with ⟨mm, mth, mtl⟩
          refine ⟨t, hrefs, htne, ?_, ?_, ?_, ?_⟩
          · have hth_final : id ∈ thumbsOf st.all_images t :=
              mth t id (rth t id (pth t id hthB))
            unfold thumbsOf at hth_final
            cases hfin : findImage st.all_images t with
            | none =>
              rw [hfin] at hth_final
              cases hth_final
            | some m2 =>
              rw [hfin] at hth_final
              exact ⟨m2, rfl, hth_final⟩
          · exact ((mm id).trans ((rm id).trans (pm id hid_l2))).trans hmapB
          · rw [mtl, rtl]
            intro hmem
            exact htlB (ptl id hmem)
          · intro htt
            refine ⟨l1, l2, hsplit, ?_⟩
            have htkeys0 : t ∈ (buildImages fm).all_images.map Prod.fst := by
              have hsome : (findImage stA.all_images t).isSome = true := by
                cases hft : findImage stA.all_images t with
                | none =>
                  rw [hft] at hmnone
                  cases hmnone
                | some _ => rfl
              have hmem := (findImage_isSome_iff stA.all_images t).mp hsome
              rwa [hkA] at hmem
            have htkeys := htkeys0
            rw [hsplit] at htkeys
            rcases List.mem_append.mp htkeys with hcase | hcase
            · exfalso
              rcases List.append_of_mem hcase with ⟨la, lb, hsplit2⟩
              rw [hsplit2] at hA
              rcases refsLoop_append fm irefs la (t :: lb) (buildImages fm) stA hA
                with ⟨stP, hPa, hPb⟩
              rw [interpretRefsLoop] at hPb
              cases hstep2 : interpretRefStep fm irefs stP t with
              | error e =>
                rw [hstep2] at hPb
                cases hPb
              | ok stQ =>
                rw [hstep2] at hPb
                have hkP := (refsLoop_pres fm irefs la (buildImages fm) stP hPa).1
                have htP : t ∈ stP.all_images.map Prod.fst := by
                  rw [hkP]
                  exact htkeys0
                rcases refStep_thmb_facts fm irefs stP stQ t htt hstep2 htP
                  with ⟨t2, _, _, _, hmapQ, _, _⟩
                have htlb : t ∉ lb := by
                  have hl1nd : l1.Nodup := by
                    have hnd2 := hnd
                    rw [hsplit] at hnd2
                    exact (List.nodup_append.mp hnd2).1
                  rw [hsplit2] at hl1nd
                  rcases List.nodup_append.mp hl1nd with ⟨_, hcons, _⟩
                  exact (List.nodup_cons.mp hcons).1
                have hmarked :=
                  ((refsLoop_pres fm irefs lb stQ stA hPb).2.2.1 t htlb).trans hmapQ
                rw [hmnone] at hmarked
                simp at hmarked
            · rcases List.mem_cons.mp hcase with hcase2 | hcase2
              · exact absurd hcase2 htne
              · exact hcase2

def irefsC1 : List IrefReference :=
  [⟨fourccThmb, 1, [2]⟩, ⟨fourccThmb, 2, [3]⟩]

def fmC1 : FileModel :=
  { primary_image_ID := 3,
    infe_items := [(1, ⟨1, 2, 0, fourccHvc1⟩), (2, ⟨2, 2, 0, fourccHvc1⟩),
                   (3, ⟨3, 2, 0, fourccHvc1⟩)],
    iloc_items := [],
    ipco_properties := [],
    ipma_entries := [⟨1, []⟩, ⟨2, []⟩, ⟨3, []⟩],
    iref_box := some irefsC1,
    idat_box := none }

/-- The context state produced by interpreting `fmC1`. -/
def stC1 : CtxState :=
  { all_images := [
      (1, { id := 1, thumbnail_of := some 2 }),
      (2, { id := 2, thumbnail_of := some 3, thumbnails := [1] }),
      (3, { id := 3, is_primary := true, thumbnails := [2] })],
    top_level := [3],
    primary := some 3 }

/-- C1 counterexample: in `fmC1`, image 1 carries a `thmb` reference whose
single target is image 2, and image 2 itself carries a `thmb` reference to
image 3.  `interpret_heif_file` nevertheless succeeds (the loop processes
image 1 before image 2 has been marked), and in the final state the target
of image 1's thumbnail reference is itself a thumbnail - contradicting the
claim that after success the target of a `thmb` reference is never itself a
thumbnail. -/
theorem C1_counterexample :
    HeifContext.interpret_heif_file fmC1 [] = .ok stC1 ∧
    Box_iref.get_reference_type irefsC1 1 = fourccThmb ∧
    Box_iref.get_references irefsC1 1 = [2] ∧
    (findImage stC1.all_images 2).map Image.thumbnail_of = some (some 3) :=
  ⟨rfl, rfl, rfl, rfl⟩

/-- Witness for the amended C1 theorem at `fmC1`, image id 1. -/
theorem C1_thumbnail_invariant_witness :
    ∃ t, Box_iref.get_references irefsC1 1 = [t] ∧ t ≠ 1 ∧
      (∃ master, findImage stC1.all_images t = some master ∧
        1 ∈ master.thumbnails) ∧
      (findImage stC1.all_images 1).map Image.thumbnail_of = some (some t) ∧
      1 ∉ stC1.top_level ∧
      (Box_iref.get_reference_type irefsC1 t = fourccThmb →
        ∃ l1 l2, (buildImages fmC1).all_images.map Prod.fst = l1 ++ 1 :: l2 ∧
          t ∈ l2) :=
  C1_thumbnail_invariant fmC1 [] irefsC1 stC1 1 rfl rfl (by decide) rfl

/-! ## C6: overlay (iovl) decoding and its soft failure -/

def fourccDimg : Nat := 0x64696d67

/-- `readvec` (heif_context.cc lines 70-79): big-endian unsigned read of
`len` bytes at `ptr`; each byte is a `uint8_t` (hence the `% 256`). -/
def readvec (data : List Nat) (ptr len : Nat) : Nat :=
  (List.range len).foldl (fun val i => val * 256 + data.getD (ptr + i) 0 % 256) 0

/-- `readvec_signed` (heif_context.cc lines 46-67): the high bit of the
field is the sign; the remaining bits are the magnitude offset
(`-(high_bit - val)` when negative). -/
def readvec_signed (data : List Nat) (ptr len : Nat) : Int :=
  let high_bit : Nat := 128 * 256 ^ (len - 1)
  let val := readvec data ptr len
  if high_bit ≤ val then -((high_bit : Int) - ((val - high_bit : Nat) : Int))
  else (val : Int)

/-- `ImageOverlay` (heif_context.cc lines 160-186). -/
structure ImageOverlay where
  version : Nat
  flags : Nat
  background_color : List Nat
  width : Nat
  height : Nat
  offsets : List (Int × Int)
  deriving DecidableEq, Repr

def overlayEofErr : Err :=
  ⟨.Invalid_input, .Invalid_grid_data, "Overlay image data incomplete"⟩

def overlayVersionErr (v : Nat) : Err :=
  ⟨.Unsupported_feature, .Unsupported_data_version,
   "Overlay image data version " ++ toString v ++ " is not implemented yet"⟩

/-- `ImageOverlay::parse` (heif_context.cc lines 190-236). -/
def ImageOverlay.parse (num_images : Nat) (data : List Nat) :
    Except Err ImageOverlay :=
  if data.length < 2 + 4 * 2 then .error overlayEofErr
  else
    let version := data.getD 0 0 % 256
    let flags := data.getD 1 0 % 256
    if version ≠ 0 then .error (overlayVersionErr version)
    else
      let field_len := if flags % 2 = 1 then 4 else 2
      if data.length < 2 + 4 * 2 + 2 * field_len + num_images * 2 * field_len then
        .error overlayEofErr
      else
        .ok { version := version, flags := flags,
              background_color :=
                (List.range 4).map (fun i => readvec data (2 + 2 * i) 2),
              width := readvec data 10 field_len,
              height := readvec data (10 + field_len) field_len,
              offsets := (List.range num_images).map (fun i =>
                (readvec_signed data (10 + 2 * field_len + 2 * field_len * i)
                   field_len,
                 readvec_signed data
                   (10 + 2 * field_len + 2 * field_len * i + field_len)
                   field_len)) }

/-- Modelled from the spec: an RGB 4:4:4 pixel image at signature level
(the spec describes low-level pixel operations only by their signatures;
heif_image.cc is outside the covered sources).  `pix x y` is the (R,G,B)
sample triple at column x, row y. -/
structure PixelImage where
  width : Nat
  height : Nat
  pix : Nat → Nat → Nat × Nat × Nat

/-- Modelled from the spec: `create` + `fill_RGB_16bit` - an RGB canvas of
the given size holding the background color everywhere. -/
def fillCanvas (w h : Nat) (color : Nat × Nat × Nat) : PixelImage :=
  ⟨w, h, fun _ _ => color⟩

def outsideCanvasErr : Err :=
  ⟨.Invalid_input, .Overlay_image_outside_of_canvas, ""⟩

/-- Modelled from the spec: the overlay blit.  An image whose signed offset
places it entirely outside the canvas is rejected with
Overlay_image_outside_of_canvas; otherwise the overlapping region of the
overlay image replaces the canvas samples there. -/
def PixelImage.overlay (canvas ovimg : PixelImage) (dx dy : Int) :
    Except Err PixelImage :=
  if dx + ovimg.width ≤ 0 ∨ dy + ovimg.height ≤ 0 ∨
      (canvas.width : Int) ≤ dx ∨ (canvas.height : Int) ≤ dy then
    .error outsideCanvasErr
  else
    let newpix : Nat → Nat → Nat × Nat × Nat := fun x y =>
      if dx ≤ (x : Int) ∧ (x : Int) < dx + ovimg.width ∧
          dy ≤ (y : Int) ∧ (y : Int) < dy + ovimg.height then
        ovimg.pix (((x : Int) - dx).toNat) (((y : Int) - dy).toNat)
      else canvas.pix x y
    .ok { canvas with pix := newpix }

def noIrefErr : Err :=
  ⟨.Invalid_input, .No_iref_box, "No iref box available, but needed for iovl image"⟩

def overlayMismatchErr : Err :=
  ⟨.Invalid_input, .Invalid_overlay_data,
   "Number of image offsets does not match the number of image references"⟩

/-- The reference loop of `decode_overlay_image` (heif_context.cc lines
1222-1251): decode each referenced image, blit it at its signed offset, and
swallow exactly the Invalid_input / Overlay_image_outside_of_canvas error
(lines 1238-1248).  The recursive `decode_image` call is the oracle `dec`;
`convert_colorspace` is the identity at this level (the oracle already
yields RGB 4:4:4 images). -/
def overlayLoop (dec : Nat → Except Err PixelImage) :
    List (Nat × (Int × Int)) → PixelImage → Except Err PixelImage
  | [], canvas => .ok canvas
  | (r, off) :: rest, canvas =>
    match dec r with
    | .error e => .error e
    | .ok ovimg =>
      match canvas.overlay ovimg off.1 off.2 with
      | .error e =>
        if e.code = .Invalid_input ∧ e.subcode = .Overlay_image_outside_of_canvas
        then overlayLoop dec rest canvas
        else .error e
      | .ok canvas2 => overlayLoop dec rest canvas2

/-- `HeifContext::decode_overlay_image` (heif_context.cc lines 1165-1251).
The source ignores the return value of `ImageOverlay::parse` (line 1191); a
failed parse leaves `m_offsets` empty, which the offset-count check then
reports as Invalid_overlay_data whenever there are references (with no
references the canvas dimensions come from uninitialized members - an
indeterminate value, modelled as 0). -/
def HeifContext.decode_overlay_image (iref_box : Option (List IrefReference))
    (ID : Nat) (overlay_data : List Nat) (dec : Nat → Except Err PixelImage) :
    Except Err PixelImage :=
  match iref_box with
  | none => .error noIrefErr
  | some irefs =>
    let refs := Box_iref.get_references irefs ID
    let ov := match ImageOverlay.parse refs.length overlay_data with
      | .ok ov => ov
      | .error _ => { version := 0, flags := 0, background_color := [],
                      width := 0, height := 0, offsets := [] }
    if refs.length ≠ ov.offsets.length then .error overlayMismatchErr
    else
      let canvas := fillCanvas ov.width ov.height
        (ov.background_color.getD 0 0, ov.background_color.getD 1 0,
         ov.background_color.getD 2 0)
      overlayLoop dec (refs.zip ov.offsets) canvas

/-- The canvas region covered by an overlay image of the given dimensions
placed at signed offset (dx, dy). -/
def coversPixel (off : Int × Int) (im : PixelImage) (x y : Nat) : Prop :=
  off.1 ≤ (x : Int) ∧ (x : Int) < off.1 + im.width ∧
  off.2 ≤ (y : Int) ∧ (y : Int) < off.2 + im.height

theorem ImageOverlay.parse_offsets_length (n : Nat) (data : List Nat)
    (ov : ImageOverlay) (h : ImageOverlay.parse n data = .ok ov) :
    ov.offsets.length = n := by
  unfold ImageOverlay.parse at h
  dsimp only at h
  repeat' split at h
  all_goals cases h
  all_goals simp

theorem overlayLoop_ok (dec : Nat → Except Err PixelImage) :
    ∀ (pairs : List (Nat × (Int × Int))) (canvas : PixelImage),
    (∀ p ∈ pairs, ∃ im, dec p.1 = .ok im) →
    ∃ canvas2, overlayLoop dec pairs canvas = .ok canvas2 ∧
      canvas2.width = canvas.width ∧ canvas2.height = canvas.height ∧
      ∀ x y,
        (∀ p ∈ pairs, ∀ im, dec p.1 = .ok im → ¬ coversPixel p.2 im x y) →
        canvas2.pix x y = canvas.pix x y := by
  intro pairs
  induction pairs with
  | nil =>
    intro canvas _
    exact ⟨canvas, rfl, rfl, rfl, fun x y _ => rfl⟩
  | cons p rest ih =>
    intro canvas hdec
    obtain ⟨r, off⟩ := p
    rcases hdec (r, off) (List.mem_cons_self _ _) with ⟨im, him⟩
    rw [overlayLoop, him]
    dsimp only
    cases hov : canvas.overlay im off.1 off.2 with
    | error e =>
      have he : e = outsideCanvasErr := by
        unfold PixelImage.overlay at hov
        split at hov
        · exact (Except.error.inj hov).symm
        · cases hov
      subst he
      dsimp only
      rw [if_pos ⟨rfl, rfl⟩]
      rcases ih canvas (fun q hq => hdec q (List.mem_cons_of_mem _ hq)) with
        ⟨c2, hloop, hw, hh, hpix⟩
      exact ⟨c2, hloop, hw, hh, fun x y hcov =>
        hpix x y (fun q hq imq hq2 => hcov q (List.mem_cons_of_mem _ hq) imq hq2)⟩
    | ok canvas2 =>
      dsimp only
      rcases ih canvas2 (fun q hq => hdec q (List.mem_cons_of_mem _ hq)) with
        ⟨c2, hloop, hw, hh, hpix⟩
      have hov2 := hov
      unfold PixelImage.overlay at hov2
      split at hov2
      · cases hov2
      · dsimp only at hov2
        injection hov2 with hc2
        refine ⟨c2, hloop, ?_, ?_, ?_⟩
        · rw [hw, ← hc2]
        · rw [hh, ← hc2]
        · intro x y hcov
          rw [hpix x y
            (fun q hq imq hq2 => hcov q (List.mem_cons_of_mem _ hq) imq hq2),
            ← hc2]
          dsimp only
          rw [if_neg]
          exact fun hin => hcov (r, off) (List.mem_cons_self _ _) im him hin

theorem overlayLoop_error (dec : Nat → Except Err PixelImage) :
    ∀ (p1 : List (Nat × (Int × Int))) (r : Nat) (off : Int × Int)
      (p2 : List (Nat × (Int × Int))) (canvas : PixelImage) (e : Err),
    (∀ p ∈ p1, ∃ im, dec p.1 = .ok im) →
    dec r = .error e →
    overlayLoop dec (p1 ++ (r, off) :: p2) canvas = .error e := by
  intro p1
  induction p1 with
  | nil =>
    intro r off p2 canvas e _ herr
    rw [List.nil_append, overlayLoop, herr]
  | cons q p1 ih =>
    intro r off p2 canvas e hdec herr
    obtain ⟨q1, qoff⟩ := q
    rcases hdec (q1, qoff) (List.mem_cons_self _ _) with ⟨im, him⟩
    rw [List.cons_append, overlayLoop, him]
    dsimp only
    cases hov : canvas.overlay im qoff.1 qoff.2 with
    | error e2 =>
      have he : e2 = outsideCanvasErr := by
        unfold PixelImage.overlay at hov
        split at hov
        · exact (Except.error.inj hov).symm
        · cases hov
      subst he
      dsimp only
      rw [if_pos ⟨rfl, rfl⟩]
      exact ih r off p2 canvas e (fun p hp => hdec p (List.mem_cons_of_mem _ hp))
        herr
    | ok canvas2 =>
      dsimp only
      exact ih r off p2 canvas2 e
        (fun p hp => hdec p (List.mem_cons_of_mem _ hp)) herr

/-- C6: when decoding an iovl item whose overlay payload parses, a
referenced image whose signed offset places it entirely outside the canvas
is a soft failure: the Overlay_image_outside_of_canvas error from the blit
is swallowed, that image is skipped and decoding continues, so when every
referenced image decodes, the decode succeeds and returns the canvas, which
still holds the background color at every pixel no referenced image covers
(in particular entirely off-canvas images cover nothing); any
referenced-image decode error is returned to the caller. -/
theorem C6_overlay_soft_failure (irefs : List IrefReference) (ID : Nat)
    (data : List Nat) (dec : Nat → Except Err PixelImage) (ov : ImageOverlay)
    (hparse : ImageOverlay.parse (Box_iref.get_references irefs ID).length data
      = .ok ov) :
    ((∀ r ∈ Box_iref.get_references irefs ID, ∃ im, dec r = .ok im) →
      ∃ canvas,
        HeifContext.decode_overlay_image (some irefs) ID data dec = .ok canvas ∧
        canvas.width = ov.width ∧ canvas.height = ov.height ∧
        ∀ x y,
          (∀ p ∈ (Box_iref.get_references irefs ID).zip ov.offsets, ∀ im,
            dec p.1 = .ok im → ¬ coversPixel p.2 im x y) →
          canvas.pix x y = (ov.background_color.getD 0 0,
            ov.background_color.getD 1 0, ov.background_color.getD 2 0)) ∧
    (∀ e r off p1 p2,
      (Box_iref.get_references irefs ID).zip ov.offsets = p1 ++ (r, off) :: p2 →
      (∀ p ∈ p1, ∃ im, dec p.1 = .ok im) →
      dec r = .error e →
      HeifContext.decode_overlay_image (some irefs) ID data dec = .error e) := by
  have hlen := ImageOverlay.parse_offsets_length _ _ _ hparse
  have hred : HeifContext.decode_overlay_image (some irefs) ID data dec =
      overlayLoop dec ((Box_iref.get_references irefs ID).zip ov.offsets)
        (fillCanvas ov.width ov.height (ov.background_color.getD 0 0,
          ov.background_color.getD 1 0, ov.background_color.getD 2 0)) := by
    unfold HeifContext.decode_overlay_image
    dsimp only
    rw [hparse]
    dsimp only
    rw [if_neg (fun hne => hne hlen.symm)]
  constructor
  · intro hdec
    rcases overlayLoop_ok dec ((Box_iref.get_references irefs ID).zip ov.offsets)
        (fillCanvas ov.width ov.height (ov.background_color.getD 0 0,
          ov.background_color.getD 1 0, ov.background_color.getD 2 0))
        (fun p hp => by
          obtain ⟨a, b⟩ := p
          exact hdec a (List.of_mem_zip hp).1) with
      ⟨c2, hloop, hw, hh, hpix⟩
    exact ⟨c2, hred.trans hloop, hw, hh, fun x y hcov => hpix x y hcov⟩
  · intro e r off p1 p2 hsplit hall herr
    rw [hred, hsplit]
    exact overlayLoop_error dec p1 r off p2 _ e hall herr

/-- The iref table of the C6 witness: one `dimg` reference from the iovl
item 10 to the single tile image 11. -/
def irefsC6 : List IrefReference := [⟨fourccDimg, 10, [11]⟩]

/-- The overlay payload of spec scenario 6: version 0, 2-byte fields,
background RGBA (0xFFFF, 0, 0, 0xFFFF), canvas 100x100, one offset
(-50, -50). -/
def dataC6 : List Nat :=
  [0, 0, 255, 255, 0, 0, 0, 0, 255, 255, 0, 100, 0, 100, 255, 206, 255, 206]

def ovC6 : ImageOverlay :=
  ⟨0, 0, [65535, 0, 0, 65535], 100, 100, [(-50, -50)]⟩

/-- The decode oracle of the C6 witness: every referenced image decodes to
a 32x32 image. -/
def decC6 : Nat → Except Err PixelImage :=
  fun _ => .ok ⟨32, 32, fun _ _ => (0, 0, 0)⟩

/-- Witness for C6 at spec scenario 6: canvas 100x100, background
RGBA (0xFFFF, 0, 0, 0xFFFF), one referenced 32x32 image placed at
(-50, -50), entirely off-canvas. -/
theorem C6_overlay_soft_failure_witness :
    ((∀ r ∈ Box_iref.get_references irefsC6 10, ∃ im, decC6 r = .ok im) →
      ∃ canvas,
        HeifContext.decode_overlay_image (some irefsC6) 10 dataC6 decC6
          = .ok canvas ∧
        canvas.width = ovC6.width ∧ canvas.height = ovC6.height ∧
        ∀ x y,
          (∀ p ∈ (Box_iref.get_references irefsC6 10).zip ovC6.offsets, ∀ im,
            decC6 p.1 = .ok im → ¬ coversPixel p.2 im x y) →
          canvas.pix x y = (ovC6.background_color.getD 0 0,
            ovC6.background_color.getD 1 0, ovC6.background_color.getD 2 0)) ∧
    (∀ e r off p1 p2,
      (Box_iref.get_references irefsC6 10).zip ovC6.offsets
        = p1 ++ (r, off) :: p2 →
      (∀ p ∈ p1, ∃ im, decC6 p.1 = .ok im) →
      decC6 r = .error e →
      HeifContext.decode_overlay_image (some irefsC6) 10 dataC6 decC6
        = .error e) :=
  C6_overlay_soft_failure irefsC6 10 dataC6 decC6 ovC6 rfl
